import Mathlib

/-!
Verification of the rate-plan markup reduction component of the
Rate_plan_pricing_extractor_v2 repository, a shallow embedding of
src/utils/advanced_html_stripper.py.

The Python module parses carrier pricing pages with BeautifulSoup, locates
plan tiles per carrier, deduplicates them by an identity key, normalizes each
unique tile into a canonical plan record and serializes the records into a
minimal markup fragment together with reduction statistics.

The embedding below mirrors the module function by function:
* HTML documents are modelled as already-parsed node trees (the spec treats
  parsing as an external Document Model capability); an element node carries
  its tag, its attribute list and its children, and text is a leaf node.
  BeautifulSoup's find/find_all traversals are pre-order traversals of this
  tree; finding the parse of the empty string is the empty tree.
* Python regular-expression searches are modelled by executable leftmost-match
  scanners over character lists, one per concrete pattern used in the source.
* Methods that mutate the soup in place become pure tree transformations; the
  mutation steps whose results are never read by the returned value are noted
  at their call sites.
-/

namespace RatePlan

/-! ## Character and string utilities -/

/-- Lower-case every character of a list (Python str.lower on ASCII text). -/
def lcChars (cs : List Char) : List Char := cs.map Char.toLower

/-- Python str.lower as a string (character-list based so that the kernel
can evaluate it). -/
def lowerStr (s : String) : String := String.mk (lcChars s.data)

/-- Python str.upper. -/
def upperStr (s : String) : String := String.mk (s.data.map Char.toUpper)

/-- Strip leading and trailing whitespace from a character list. -/
def trimChars (cs : List Char) : List Char :=
  ((cs.dropWhile Char.isWhitespace).reverse.dropWhile Char.isWhitespace).reverse

/-- Whether the first list is a prefix of the second, by character equality. -/
def prefixChars : List Char → List Char → Bool
  | [], _ => true
  | _ :: _, [] => false
  | a :: as, b :: bs => a == b && prefixChars as bs

/-- Substring containment on character lists (Python "needle in hay"). -/
def containsSub (needle : List Char) : List Char → Bool
  | [] => needle.isEmpty
  | c :: rest => prefixChars needle (c :: rest) || containsSub needle rest

/-- Case-insensitive substring containment. -/
def containsSubCI (needle hay : List Char) : Bool :=
  containsSub (lcChars needle) (lcChars hay)

/-- Substring containment between strings. -/
def strContains (needle hay : String) : Bool :=
  containsSub needle.data hay.data

/-- Case-insensitive substring containment between strings. -/
def strContainsCI (needle hay : String) : Bool :=
  containsSubCI needle.data hay.data

/-- Split a character list into maximal whitespace-free words, folding from
the right with the word under construction carried separately. -/
def wordsAux (cs : List Char) : List Char × List (List Char) :=
  cs.foldr
    (fun c st =>
      if c.isWhitespace then
        ([], if st.1.isEmpty then st.2 else st.1 :: st.2)
      else (c :: st.1, st.2))
    ([], [])

/-- The maximal whitespace-free words of a character list. -/
def wordsOfChars (cs : List Char) : List (List Char) :=
  let st := wordsAux cs
  if st.1.isEmpty then st.2 else st.1 :: st.2

/-- Python str.split(): split on whitespace runs, dropping empty pieces. -/
def wordsOf (s : String) : List String :=
  (wordsOfChars s.data).map String.mk

/-- Python str.strip(). -/
def pyStrip (s : String) : String := String.mk (trimChars s.data)

/-- Collapse every whitespace run to a single space and strip the ends
(re.sub(r'\s+', ' ', text).strip()). -/
def collapseWs (s : String) : String :=
  String.intercalate " " (wordsOf s)

/-- Python "str1 in str2" membership for single characters. -/
def hasChar (c : Char) (s : String) : Bool := s.data.any (fun d => d == c)

/-- Replace every occurrence of a non-empty pattern in a character list
(Python str.replace, scanning left to right over non-overlapping
occurrences).  The fuel only bounds the recursion and never runs out when
it starts at the list length, since every step consumes at least one
character. -/
def replaceChars (pat rep : List Char) : Nat → List Char → List Char
  | 0, l => l
  | _ + 1, [] => []
  | fuel + 1, c :: cs =>
    if prefixChars pat (c :: cs) && !pat.isEmpty then
      rep ++ replaceChars pat rep fuel (cs.drop (pat.length - 1))
    else c :: replaceChars pat rep fuel cs

/-- Replace every occurrence of a pattern (Python str.replace). -/
def replaceAll (pat rep : String) (s : String) : String :=
  String.mk (replaceChars pat.data rep.data s.data.length s.data)

/-- Suffix test by characters (Python str.endswith). -/
def endsWithStr (suffix s : String) : Bool :=
  prefixChars suffix.data.reverse s.data.reverse

/-! ## Leftmost regex-style scanning

Python re.search finds the leftmost position where the pattern matches.
scanFirst tries an anchored matcher at every suffix, left to right. -/

/-- Try an anchored matcher at every suffix, leftmost first. -/
def scanFirst (tryAt : List Char → Option α) : List Char → Option α
  | [] => none
  | c :: rest =>
    match tryAt (c :: rest) with
    | some r => some r
    | none => scanFirst tryAt rest

/-- Greedily take leading decimal digits, returning them and the rest. -/
def takeDigits : List Char → List Char × List Char
  | [] => ([], [])
  | c :: rest =>
    if c.isDigit then
      let (ds, rs) := takeDigits rest
      (c :: ds, rs)
    else ([], c :: rest)

/-- Greedily take leading whitespace, returning the rest. -/
def dropWs : List Char → List Char
  | [] => []
  | c :: rest => if c.isWhitespace then dropWs rest else c :: rest

/-- Anchored match of the digit body "\d+(\.\d+)?": the digits with an
optional decimal part, returning (matched characters, rest). -/
def matchNumBody : List Char → Option (List Char × List Char) :=
  fun cs =>
    match takeDigits cs with
    | ([], _) => none
    | (ds, rest) =>
      match rest with
      | '.' :: rest2 =>
        match takeDigits rest2 with
        | ([], _) => (some (ds, rest))
        | (fs, rest3) => some (ds ++ '.' :: fs, rest3)
      | _ => some (ds, rest)

/-! ## Document model

The parsed HTML tree consumed by the stripper.  The Document Model itself is
an external capability (BeautifulSoup); the stripper only needs tag/attribute
queries, text extraction and parent/sibling navigation, which a node tree
with explicit traversal contexts provides. -/

/-- A parsed markup node: a text leaf or an element with tag, attributes and
children.  Attribute values are kept as raw strings (the class attribute is
the space-separated class string). -/
inductive Node where
  | text (s : String)
  | elem (tag : String) (attrs : List (String × String)) (children : List Node)
deriving Repr

mutual

/-- Structural equality of nodes (standing in for BeautifulSoup tag
comparison). -/
def Node.beq : Node → Node → Bool
  | .text s, .text t => s == t
  | .elem t1 a1 c1, .elem t2 a2 c2 => t1 == t2 && a1 == a2 && beqNodeList c1 c2
  | _, _ => false

/-- Structural equality of node lists. -/
def beqNodeList : List Node → List Node → Bool
  | [], [] => true
  | a :: as, b :: bs => Node.beq a b && beqNodeList as bs
  | _, _ => false

end

instance : BEq Node := ⟨Node.beq⟩

/-- A parsed document: the top-level nodes of the soup. -/
abbrev Doc := List Node

/-- Parsing the empty string yields a soup with no nodes at all
(BeautifulSoup("", "html.parser") has no elements). -/
def emptyDoc : Doc := []

/-- Attribute lookup (tag.get(name)); text leaves have no attributes. -/
def Node.attr? (n : Node) (name : String) : Option String :=
  match n with
  | .text _ => none
  | .elem _ attrs _ => (attrs.find? (fun p => p.1 == name)).map Prod.snd

/-- Python tag.get(name, ""). -/
def Node.attrD (n : Node) (name : String) : String :=
  (n.attr? name).getD ""

/-- The tag of an element node. -/
def Node.tagOf : Node → String
  | .text _ => ""
  | .elem t _ _ => t

/-- Whether the node is an element (a Tag in BeautifulSoup terms). -/
def Node.isElem : Node → Bool
  | .text _ => false
  | .elem _ _ _ => true

mutual

/-- All string leaves of a node, in document order (tag.strings). -/
def Node.strings : Node → List String
  | .text s => [s]
  | .elem _ _ cs => stringsList cs

/-- String leaves of a node list, in document order. -/
def stringsList : List Node → List String
  | [] => []
  | c :: cs => c.strings ++ stringsList cs

end

/-- tag.get_text(): concatenation of all contained strings. -/
def Node.textAll (n : Node) : String :=
  String.join n.strings

/-- tag.get_text(strip=True): each string stripped, empties dropped, joined
with no separator. -/
def Node.textStrip (n : Node) : String :=
  String.join ((n.strings.map pyStrip).filter (fun s => !s.isEmpty))

/-- tag.get_text(" ", strip=True): stripped non-empty strings joined with a
single space. -/
def Node.textSpace (n : Node) : String :=
  String.intercalate " " ((n.strings.map pyStrip).filter (fun s => !s.isEmpty))

/-- tag.stripped_strings: the stripped non-empty strings themselves. -/
def Node.strippedStrings (n : Node) : List String :=
  (n.strings.map pyStrip).filter (fun s => !s.isEmpty)

/-- A node occurrence during traversal: the node together with its ancestor
chain (closest first) and the siblings that precede it (closest first).
This supplies find_parent and find_previous_siblings without back pointers. -/
structure Ctx where
  node : Node
  parents : List Node
  prevSibs : List Node
deriving Repr

mutual

/-- Traversal contexts of all descendants of a node, in document order
(the node itself is not listed, matching tag.find_all). -/
def Node.ctxs (anc : List Node) : Node → List Ctx
  | .text _ => []
  | .elem t attrs cs => ctxsList (Node.elem t attrs cs :: anc) [] cs

/-- Traversal contexts of a sibling list and their descendants. -/
def ctxsList (anc : List Node) (prev : List Node) : List Node → List Ctx
  | [] => []
  | c :: cs =>
    { node := c, parents := anc, prevSibs := prev } ::
      (c.ctxs anc ++ ctxsList anc (c :: prev) cs)

end

/-- Wrap a document in a synthetic root, mirroring the BeautifulSoup document
object (so every top-level node has the soup as its parent and the soup's
get_text covers the whole document). -/
def rootNode (d : Doc) : Node := .elem "[document]" [] d

/-- soup.find_all traversal contexts for a whole document. -/
def docCtxs (d : Doc) : List Ctx := (rootNode d).ctxs []

/-- tag.find_all(pred): descendant element nodes satisfying a predicate, in
document order. -/
def Node.findAll (n : Node) (p : Node → Bool) : List Node :=
  ((n.ctxs []).filter (fun c => c.node.isElem && p c.node)).map Ctx.node

/-- tag.find(pred): the first matching descendant element. -/
def Node.findFirst (n : Node) (p : Node → Bool) : Option Node :=
  (n.findAll p).head?

/-- soup.find_all(pred) over the whole document. -/
def docFindAll (d : Doc) (p : Node → Bool) : List Node :=
  (rootNode d).findAll p

/-- Descendant elements with a given tag name. -/
def Node.byTag (n : Node) (t : String) : List Node :=
  n.findAll (fun m => m.tagOf == t)

/-! ## Anchored matchers for the price and data regexes of the source

Each matcher embeds one concrete regular expression from
advanced_html_stripper.py, anchored at the start of the character list;
re.search is scanFirst of the anchored matcher.  Greedy digit/whitespace
runs are taken maximally, exactly as the regex engine does; none of the
embedded patterns can succeed through backtracking where the greedy reading
fails, because no alternative after a digit or whitespace run starts with a
digit or whitespace character. -/

/-- Consume a literal case-insensitively, returning the consumed original
characters and the rest. -/
def litCI : List Char → List Char → Option (List Char × List Char)
  | [], cs => some ([], cs)
  | _ :: _, [] => none
  | l :: ls, c :: cs =>
    if l.toLower == c.toLower then
      (litCI ls cs).map (fun p => (c :: p.1, p.2))
    else none

/-- Split a leading whitespace run from the rest. -/
def wsSplit : List Char → List Char × List Char
  | [] => ([], [])
  | c :: cs =>
    if c.isWhitespace then
      let p := wsSplit cs
      (c :: p.1, p.2)
    else ([], c :: cs)

/-- "\$\d+(?:\.\d+)?": a dollar sign immediately followed by a number;
returns (matched text, rest).  Used by the Rogers, Telus, Fido and Virgin
plain price searches. -/
def dollarAt : List Char → Option (List Char × List Char)
  | '$' :: cs => (matchNumBody cs).map (fun p => ('$' :: p.1, p.2))
  | _ => none

/-- re.search(r'\$\d+(?:\.\d+)?', text): leftmost plain dollar amount. -/
def scanDollar (s : String) : Option String :=
  (scanFirst dollarAt s.data).map (fun p => String.mk p.1)

/-- "\$\s*\d+(?:\.\d+)?" (Bell allows whitespace between the sign and the
digits); returns (digit body, rest).  The source's follow-up cleanups
re.sub(r'\s*/?\s*mo\.?', '') and re.sub(r'\s+', '') reduce the matched text
to "$" + body, so the body is returned directly. -/
def bellDollarAt : List Char → Option (List Char × List Char)
  | '$' :: cs =>
    let r1 := (wsSplit cs).2
    matchNumBody r1
  | _ => none

/-- Bell price search of _deduplicate_bell_plans:
re.search(r'\$\s*\d+(?:\.\d+)?(?:\s*/?\s*mo\.?)?', text) followed by the
cleanup substitutions, yielding "$" + digits[.decimals]. -/
def bellDedupPrice (s : String) : Option String :=
  (scanFirst bellDollarAt s.data).map (fun p => "$" ++ String.mk p.1)

/-- Bell price-with-context pattern of _normalize_bell_plan:
r'\$\s*(\d+(?:\.\d+)?)(?:\s*/?\s*mo\.?|\s+per month)' (re.I), returning
group 1. -/
def bellContextPriceAt : List Char → Option (List Char)
  | '$' :: cs =>
    let r1 := (wsSplit cs).2
    match matchNumBody r1 with
    | none => none
    | some (body, rest) =>
      let alt1 :=
        let a1 := (wsSplit rest).2
        let a2 := match a1 with
          | '/' :: t => t
          | _ => a1
        let a3 := (wsSplit a2).2
        (litCI "mo".data a3).isSome
      let alt2 :=
        match wsSplit rest with
        | ([], _) => false
        | (_ :: _, b1) => (litCI "per month".data b1).isSome
      if alt1 || alt2 then some body else none
  | _ => none

/-- re.findall over non-overlapping leftmost matches, with fuel (every
embedded pattern consumes at least one character per match). -/
def findAllScan (tryAt : List Char → Option (α × List Char)) :
    Nat → List Char → List α
  | 0, _ => []
  | _ + 1, [] => []
  | fuel + 1, c :: cs =>
    match tryAt (c :: cs) with
    | some (a, rest) => a :: findAllScan tryAt fuel rest
    | none => findAllScan tryAt fuel cs

/-- re.findall(r'\$\s*\d+(?:\.\d+)?', text) followed by whitespace removal
on each match (the meaningful_prices cleanup of _normalize_bell_plan). -/
def bellAllPrices (s : String) : List String :=
  (findAllScan bellDollarAt (s.data.length + 1) s.data).map
    (fun body => "$" ++ String.mk body)

/-- Telus text price pattern of _extract_telus_price:
r'\$\d+(?:\.\d+)?(?:\s+per\s+month|\s+/mo)?' (re.I), returning the matched
text with its original spelling. -/
def telusPriceAt : List Char → Option (List Char)
  | '$' :: cs =>
    match matchNumBody cs with
    | none => none
    | some (body, rest) =>
      let q1 : Option (List Char) :=
        match wsSplit rest with
        | ([], _) => none
        | (w :: ws, r1) =>
          match litCI "per".data r1 with
          | none => none
          | some (p, r2) =>
            match wsSplit r2 with
            | ([], _) => none
            | (w2 :: w2s, r3) =>
              (litCI "month".data r3).map
                (fun m => (w :: ws) ++ p ++ (w2 :: w2s) ++ m.1)
      let q2 : Option (List Char) :=
        match wsSplit rest with
        | ([], _) => none
        | (w :: ws, r1) =>
          (litCI "/mo".data r1).map (fun m => (w :: ws) ++ m.1)
      let q := match q1 with
        | some v => some v
        | none => q2
      some ('$' :: body ++ q.getD [])
  | _ => none

/-- Rogers final-price pattern of _extract_final_price:
r'\$\d+(?:\.\d+)?(?:\s*per\s*mo|\s*/mo)?' (re.I), returning the matched
text. -/
def rogersFinalPriceAt : List Char → Option (List Char)
  | '$' :: cs =>
    match matchNumBody cs with
    | none => none
    | some (body, rest) =>
      let q1 : Option (List Char) :=
        let (w, r1) := wsSplit rest
        match litCI "per".data r1 with
        | none => none
        | some (p, r2) =>
          let (w2, r3) := wsSplit r2
          (litCI "mo".data r3).map (fun m => w ++ p ++ w2 ++ m.1)
      let q2 : Option (List Char) :=
        let (w, r1) := wsSplit rest
        (litCI "/mo".data r1).map (fun m => w ++ m.1)
      let q := match q1 with
        | some v => some v
        | none => q2
      some ('$' :: body ++ q.getD [])
  | _ => none

/-- Freedom price pattern of _normalize_freedom_plan and
_deduplicate_freedom_plans:
r'\$?(\d+(?:\.\d+)?)\s*(?:/|per)\s*mo(?:nth)?' (re.I) — the dollar sign is
OPTIONAL; returns group 1 (the digit body). -/
def freedomPriceAt : List Char → Option (List Char)
  | cs =>
    let cs1 := match cs with
      | '$' :: t => t
      | _ => cs
    match matchNumBody cs1 with
    | none => none
    | some (body, rest) =>
      let r1 := (wsSplit rest).2
      let sep : Option (List Char) :=
        match r1 with
        | '/' :: t => some t
        | _ => (litCI "per".data r1).map Prod.snd
      match sep with
      | none => none
      | some r2 =>
        let r3 := (wsSplit r2).2
        if (litCI "mo".data r3).isSome then some body else none

/-- Freedom price extraction from container text (lines 1363-1370 of the
source): the qualified pattern above, else a plain dollar amount, else
"unknown". -/
def freedomPriceFromText (s : String) : String :=
  match scanFirst freedomPriceAt s.data with
  | some body => "$" ++ String.mk body
  | none =>
    match scanDollar s with
    | some m => m
    | none => "unknown"

/-- Fido qualified price pattern: r'\$(\d+(?:\.\d+)?)\s*(?:per\s*mo|/mo)'
(re.I), returning group 1. -/
def fidoPriceAt : List Char → Option (List Char)
  | '$' :: cs =>
    match matchNumBody cs with
    | none => none
    | some (body, rest) =>
      let r1 := (wsSplit rest).2
      let alt1 :=
        match litCI "per".data r1 with
        | none => false
        | some (_, r2) =>
          let r3 := (wsSplit r2).2
          (litCI "mo".data r3).isSome
      let alt2 := (litCI "/mo".data r1).isSome
      if alt1 || alt2 then some body else none
  | _ => none

/-- Virgin qualified price pattern: r'\$(\d+(?:\.\d+)?)\s*(?:/|per)\s*mo'
(re.I), returning group 1. -/
def virginPriceAt : List Char → Option (List Char)
  | '$' :: cs =>
    match matchNumBody cs with
    | none => none
    | some (body, rest) =>
      let r1 := (wsSplit rest).2
      let sep : Option (List Char) :=
        match r1 with
        | '/' :: t => some t
        | _ => (litCI "per".data r1).map Prod.snd
      match sep with
      | none => none
      | some r2 =>
        let r3 := (wsSplit r2).2
        if (litCI "mo".data r3).isSome then some body else none
  | _ => none

/-- Koodo price pattern r'\$(\d+(?:\.\d+)?)' (group 1, reassembled as
"$" + group 1, which equals the matched text). -/
def koodoPriceOfText (s : String) : Option String := scanDollar s

/-- "(\d+)\s*GB" (re.I), returning (matched text, rest). -/
def numGBAt : List Char → Option (List Char × List Char)
  | cs =>
    match takeDigits cs with
    | ([], _) => none
    | (ds, rest) =>
      let (w, r1) := wsSplit rest
      (litCI "gb".data r1).map (fun p => (ds ++ w ++ p.1, p.2))

/-- re.search(r'(\d+)\s*GB', text, re.I) returning the matched text. -/
def scanNumGB (s : String) : Option String :=
  (scanFirst numGBAt s.data).map (fun p => String.mk p.1)

/-- "(\d+)\s*(GB|MB)" (re.I) of the Virgin strategy, returning the matched
text. -/
def numGBorMBAt : List Char → Option (List Char)
  | cs =>
    match takeDigits cs with
    | ([], _) => none
    | (ds, rest) =>
      let (w, r1) := wsSplit rest
      match litCI "gb".data r1 with
      | some (p, _) => some (ds ++ w ++ p)
      | none => (litCI "mb".data r1).map (fun p => ds ++ w ++ p.1)

/-- re.search(r'(\d+)\s*(GB|MB)', text, re.I) returning the matched text. -/
def scanNumGBorMB (s : String) : Option String :=
  (scanFirst numGBorMBAt s.data).map String.mk

/-- "(\d+GB|\d+MB)" (re.I): digits immediately followed by the unit, the
Virgin name pattern; returns the matched text. -/
def numUnitTightAt : List Char → Option (List Char)
  | cs =>
    match takeDigits cs with
    | ([], _) => none
    | (ds, rest) =>
      match litCI "gb".data rest with
      | some (p, _) => some (ds ++ p)
      | none => (litCI "mb".data rest).map (fun p => ds ++ p.1)

/-- "\d+\s*GB|Unlimited" (re.I) of _extract_data_amount, returning the
matched text. -/
def rogersDataAt : List Char → Option (List Char)
  | cs =>
    match numGBAt cs with
    | some (m, _) => some m
    | none => (litCI "unlimited".data cs).map Prod.fst

/-- re.search(r'(\d+\s*GB|Unlimited)', text, re.I). -/
def scanRogersData (s : String) : Option String :=
  (scanFirst rogersDataAt s.data).map String.mk

/-- "(\d+\s*GB(?:\s+at\s+\d+G(?:\+)?\s+Speed)?|Unlimited)" (re.I), the Telus
and Koodo text fallback data pattern, returning the matched text. -/
def gbAtSpeedAt : List Char → Option (List Char)
  | cs =>
    match numGBAt cs with
    | some (m, rest) =>
      let suffix : Option (List Char) :=
        match wsSplit rest with
        | ([], _) => none
        | (w :: ws, r1) =>
          match litCI "at".data r1 with
          | none => none
          | some (a, r2) =>
            match wsSplit r2 with
            | ([], _) => none
            | (w2 :: w2s, r3) =>
              match takeDigits r3 with
              | ([], _) => none
              | (ds, r4) =>
                match litCI "g".data r4 with
                | none => none
                | some (g, r5) =>
                  let (plus, r6) := match r5 with
                    | '+' :: t => (['+'], t)
                    | _ => (([] : List Char), r5)
                  match wsSplit r6 with
                  | ([], _) => none
                  | (w3 :: w3s, r7) =>
                    (litCI "speed".data r7).map
                      (fun sp =>
                        (w :: ws) ++ a ++ (w2 :: w2s) ++ ds ++ g ++ plus ++
                          (w3 :: w3s) ++ sp.1)
      some (m ++ suffix.getD [])
    | none => (litCI "unlimited".data cs).map Prod.fst

/-- re.search of the pattern above. -/
def scanGBAtSpeed (s : String) : Option String :=
  (scanFirst gbAtSpeedAt s.data).map String.mk

/-- Koodo speed pattern r'at\s+(\d+G(?:\+)?)\s+Speed' (re.I), returning
group 1. -/
def koodoSpeedAt : List Char → Option (List Char)
  | cs =>
    match litCI "at".data cs with
    | none => none
    | some (_, r1) =>
      match wsSplit r1 with
      | ([], _) => none
      | (_ :: _, r2) =>
        match takeDigits r2 with
        | ([], _) => none
        | (ds, r3) =>
          match litCI "g".data r3 with
          | none => none
          | some (g, r4) =>
            let (plus, r5) := match r4 with
              | '+' :: t => (['+'], t)
              | _ => (([] : List Char), r4)
            match wsSplit r5 with
            | ([], _) => none
            | (_ :: _, r6) =>
              if (litCI "speed".data r6).isSome then some (ds ++ g ++ plus)
              else none

/-- re.search(r'at\s+(\d+G(?:\+)?)\s+Speed', s, re.I) returning group 1. -/
def scanKoodoSpeed (s : String) : Option String :=
  (scanFirst koodoSpeedAt s.data).map String.mk

/-- Boolean re.search for "pay\s*per\s*use" (re.I). -/
def hasPayPerUse (s : String) : Bool :=
  (scanFirst
    (fun cs =>
      match litCI "pay".data cs with
      | none => none
      | some (_, r1) =>
        let r2 := (wsSplit r1).2
        match litCI "per".data r2 with
        | none => none
        | some (_, r3) =>
          let r4 := (wsSplit r3).2
          (litCI "use".data r4).map Prod.fst)
    s.data).isSome

/-- Boolean re.search for "talk\s*and\s*text" (re.I). -/
def talkAndTextAt : List Char → Option (List Char)
  | cs =>
    match litCI "talk".data cs with
    | none => none
    | some (_, r1) =>
      let r2 := (wsSplit r1).2
      match litCI "and".data r2 with
      | none => none
      | some (_, r3) =>
        let r4 := (wsSplit r3).2
        (litCI "text".data r4).map Prod.fst

/-- Boolean re.search for "talk\s*and\s*text" (re.I). -/
def hasTalkAndText (s : String) : Bool :=
  (scanFirst talkAndTextAt s.data).isSome

/-- Boolean "has a \d+\s*(GB|MB) match". -/
def hasNumData (s : String) : Bool := (scanNumGBorMB s).isSome

/-! ## Canonical plan records and extraction results -/

/-- The canonical plan record assembled by the per-carrier normalizers
(the dict returned by the _normalize_* functions).  Fields a carrier does
not set keep their defaults. -/
structure PlanRec where
  name : String
  price : String := "unknown"
  regularPrice : Option String := none
  bundlePrice : Option String := none
  data : String := "unknown"
  network : Option String := none
  roaming : Option String := none
  features : List String := []
  discounts : List String := []
  promotions : List String := []
  ribbon : Option String := none
deriving Repr, DecidableEq

/-- The value returned by each strip_*_html entry point: the minimal markup
plus the reduction statistics.  The normalized records serialized into the
markup are carried alongside for specification purposes; reduction_percent
is omitted (floating point).  tokens_saved is a Python int and may be
negative. -/
structure StripResult where
  html : String
  records : List PlanRec
  planCount : Nat
  tilesBeforeDedup : Nat
  tilesAfterDedup : Nat
  originalSize : Nat
  strippedSize : Nat
  originalTokens : Nat
  strippedTokens : Nat
  tokensSaved : Int
deriving Repr, DecidableEq

/-- _basic_fallback: returned when a carrier finds no plan tiles at all.
The html is returned unchanged and every tile/plan counter is zero. -/
def basicFallback (raw : String) : StripResult :=
  { html := raw
    records := []
    planCount := 0
    tilesBeforeDedup := 0
    tilesAfterDedup := 0
    originalSize := raw.length
    strippedSize := raw.length
    originalTokens := raw.length / 4
    strippedTokens := raw.length / 4
    tokensSaved := 0 }

/-! ## First-occurrence deduplication

Every _deduplicate_* function of the source (except Virgin's two-level
variant, embedded separately below) is one instance of the same loop:
walk the candidates in document order, compute a key (skipping candidates
whose key extraction bails out), and keep a candidate exactly when its key
has not been seen before. -/

/-- The shared seen_keys loop of the _deduplicate_* functions: keep the
first candidate for each distinct key, skipping keyless candidates; seen
carries the keys already taken. -/
def dedupFirst [DecidableEq K] (keyOf : α → Option K) :
    List α → List K → List α
  | [], _ => []
  | x :: xs, seen =>
    match keyOf x with
    | none => dedupFirst keyOf xs seen
    | some k =>
      if k ∈ seen then dedupFirst keyOf xs seen
      else x :: dedupFirst keyOf xs (k :: seen)

/-! ## Subtree pruning (decompose of sup / button nodes) -/

mutual

/-- Remove every element node satisfying the predicate, recursively
(tag.decompose over a whole subtree). -/
def Node.prune (p : Node → Bool) : Node → Node
  | .text s => .text s
  | .elem t a cs => .elem t a (pruneList p cs)

/-- Remove matching elements from a sibling list. -/
def pruneList (p : Node → Bool) : List Node → List Node
  | [] => []
  | c :: cs =>
    if c.isElem && p c then pruneList p cs
    else c.prune p :: pruneList p cs

end

/-- Remove all sup descendants (the footnote cleanup applied before reading
feature text). -/
def removeSups (n : Node) : Node :=
  n.prune (fun m => m.tagOf == "sup")

/-! ## Minimal markup renderer (_build_final_html) -/

/-- One plan's lines of the minimal markup. -/
def planHtmlParts (plan : PlanRec) : List String :=
  ["<div class=\"plan\">", "  <h2>" ++ plan.name ++ "</h2>"] ++
  (match plan.regularPrice with
   | some rp =>
     if plan.price ≠ "" ∧ rp ≠ plan.price then
       ["  <p class=\"regular-price\">Regular price: " ++ rp ++ "</p>"]
     else []
   | none => []) ++
  (if plan.price ≠ "" ∧ plan.price ≠ "unknown" then
     ["  <p class=\"price\">Current price: " ++ plan.price ++ "</p>"]
   else []) ++
  (match plan.bundlePrice with
   | some bp => ["  <p class=\"bundle-price\">Bundled price: " ++ bp ++ "</p>"]
   | none => []) ++
  (if plan.data ≠ "" ∧ plan.data ≠ "unknown" then
     ["  <p class=\"data\">Data: " ++ plan.data ++ "</p>"]
   else []) ++
  (match plan.network with
   | some nw => ["  <p class=\"network\">" ++ nw ++ "</p>"]
   | none => []) ++
  (match plan.roaming with
   | some r => ["  <p class=\"roaming\">" ++ r ++ "</p>"]
   | none => []) ++
  (if plan.features.isEmpty then []
   else
     ["  <ul class=\"features\">"] ++
       ((plan.features.map collapseWs).filter (fun f => !f.isEmpty)).map
         (fun f => "    <li>" ++ f ++ "</li>") ++
       ["  </ul>"]) ++
  (if plan.discounts.isEmpty then []
   else
     ["  <ul class=\"discounts\">"] ++
       plan.discounts.map (fun d => "    <li>" ++ d ++ "</li>") ++
       ["  </ul>"]) ++
  (if plan.promotions.isEmpty then []
   else
     ["  <ul class=\"promotions\">"] ++
       plan.promotions.map (fun pr => "    <li>" ++ pr ++ "</li>") ++
       ["  </ul>"]) ++
  ["</div>"]

/-- _build_final_html: serialize the normalized plans, joined by newlines. -/
def buildFinalHtml (plans : List PlanRec) : String :=
  String.intercalate "\n" (plans.flatMap planHtmlParts)

/-- Assemble the statistics block shared by every tiles-found return path. -/
def mkResult (raw : String) (finalHtml : String) (records : List PlanRec)
    (tilesBefore tilesAfter : Nat) : StripResult :=
  { html := finalHtml
    records := records
    planCount := records.length
    tilesBeforeDedup := tilesBefore
    tilesAfterDedup := tilesAfter
    originalSize := raw.length
    strippedSize := finalHtml.length
    originalTokens := raw.length / 4
    strippedTokens := finalHtml.length / 4
    tokensSaved := (raw.length / 4 : Int) - (finalHtml.length / 4 : Int) }

/-! ## Rogers strategy (tile-class based, variant A) -/

/-- Whether an element's class attribute contains a substring
(the CSS selector [class*="..."], case-sensitive). -/
def hasClassSub (sub : String) (n : Node) : Bool :=
  match n.attr? "class" with
  | some c => strContains sub c
  | none => false

/-- Whether an element's class attribute matches re.compile(pat, re.I)
(bs4 class_ match against the raw class string). -/
def hasClassCI (sub : String) (n : Node) : Bool :=
  match n.attr? "class" with
  | some c => strContainsCI sub c
  | none => false

/-- soup.select('[class*="dsa-vertical-tile"], [class*="ds-tile"], ds-tile,
dsa-vertical-tile'): the Rogers plan tiles, in document order. -/
def rogersLocate (d : Doc) : List Node :=
  docFindAll d (fun n =>
    hasClassSub "dsa-vertical-tile" n || hasClassSub "ds-tile" n ||
    n.tagOf == "ds-tile" || n.tagOf == "dsa-vertical-tile")

/-- The label texts skipped while hunting for the Rogers plan name. -/
def rogersSkipLabels : List String :=
  ["features", "plan perks",
   "get 3% cash back value with a rogers red credit card",
   "after auto-pay", "price before incentives", "rogers satellite included"]

/-- The condition a p-text must pass to count as a Rogers plan name
(first meaningful paragraph heuristic, shared by _deduplicate_plans and
_normalize_plan). -/
def rogersNameOk (text : String) : Bool :=
  !text.isEmpty && text.length ≥ 2 &&
  !(rogersSkipLabels.contains (lowerStr text)) &&
  !hasChar '$' text &&
  !(strContainsCI "per mo" text || strContainsCI "/mo" text) &&
  (match text.data with
   | c :: _ => c.isUpper
   | [] => false) &&
  text.length < 50 &&
  (wordsOf text).length ≤ 3

/-- Plan name = first qualifying p inside the tile (None when every
paragraph is rejected). -/
def rogersPlanName (tile : Node) : Option String :=
  (((tile.byTag "p").map Node.textStrip).filter rogersNameOk).head?

/-- _extract_price: first $NNN inside a ds-price (or price-classed) node,
else inside a span containing "per mo", else "unknown". -/
def extractPrice (tile : Node) : String :=
  let dsPrice :=
    match tile.findFirst (fun n => n.tagOf == "ds-price") with
    | some n => some n
    | none => tile.findFirst (hasClassCI "price")
  let fromDs :=
    match dsPrice with
    | some n => scanDollar n.textAll
    | none => none
  match fromDs with
  | some m => m
  | none =>
    let spanHit :=
      ((tile.byTag "span").filterMap
        (fun sp =>
          if strContainsCI "per mo" sp.textAll then scanDollar sp.textAll
          else none)).head?
    spanHit.getD "unknown"

/-- The ul/parent contexts of a tile, for find_parent-based feature-list
discovery. -/
def ulCtxs (tile : Node) : List Ctx :=
  (tile.ctxs []).filter (fun c => c.node.tagOf == "ul")

/-- _extract_data_amount: the data line of the Features list, else of any
list item matching the data pattern, else "unknown". -/
def extractDataAmount (tile : Node) : String :=
  let featuresUl :=
    ((ulCtxs tile).filter (fun c =>
      match c.parents.head? with
      | some par =>
        strContainsCI "features" par.textAll || strContainsCI "feature" par.textAll
      | none => false)).head?
  match featuresUl with
  | some c =>
    (((c.node.byTag "li").filterMap
        (fun li => scanRogersData li.textAll)).head?).getD "unknown"
  | none =>
    ((((tile.byTag "ul").flatMap (fun ul => ul.byTag "li")).filterMap
        (fun li => scanRogersData li.textAll)).head?).getD "unknown"

/-- The (name, price, data) deduplication key of _deduplicate_plans; None
when no plan name is found (the candidate is skipped). -/
def rogersKey (tile : Node) : Option String :=
  (rogersPlanName tile).map
    (fun n => n ++ "|" ++ extractPrice tile ++ "|" ++ extractDataAmount tile)

/-- _deduplicate_plans: first-occurrence dedup of the located tiles by the
(name, price, data) key.  (The source stores the tile in a dict together
with the extracted fields; only the tile is consumed downstream.) -/
def deduplicatePlans (tiles : List Node) : List Node :=
  dedupFirst rogersKey tiles []

/-- _extract_final_price: final monthly price, keeping the matched qualifier
text (ds-price path) or appending "/mo" (span path). -/
def extractFinalPrice (tile : Node) : String :=
  let dsPrice :=
    match tile.findFirst (fun n => n.tagOf == "ds-price") with
    | some n => some n
    | none => tile.findFirst (hasClassCI "price")
  let fromDs :=
    match dsPrice with
    | some n =>
      (scanFirst rogersFinalPriceAt n.textAll.data).map
        (fun m => pyStrip (String.mk m))
    | none => none
  match fromDs with
  | some m => m
  | none =>
    let spanHit :=
      ((tile.byTag "span").filterMap
        (fun sp =>
          if strContainsCI "per mo" sp.textAll || strContainsCI "/mo" sp.textAll
          then (scanDollar sp.textAll).map (fun m => m ++ "/mo")
          else none)).head?
    spanHit.getD "unknown"

/-- _extract_price_before_incentives: dollar amount in the parent of the
first string mentioning "Price before incentives". -/
def extractPriceBeforeIncentives (tile : Node) : Option String :=
  let hit :=
    ((tile.ctxs []).filter (fun c =>
      match c.node with
      | .text s => strContainsCI "Price before incentives" s
      | .elem _ _ _ => false)).head?
  match hit with
  | some c =>
    let parentText :=
      match c.parents.head? with
      | some par => par.textSpace
      | none =>
        match c.node with
        | .text s => s
        | .elem _ _ _ => ""
    scanDollar parentText
  | none => none

/-- re.sub(r'\d+$', '', text).strip(): drop trailing footnote digits. -/
def stripTrailingDigits (s : String) : String :=
  pyStrip (String.mk ((s.data.reverse.dropWhile Char.isDigit).reverse))

/-- re.sub(r'^\s*[•\-\*]\s*', '', text): drop a leading list-marker. -/
def stripBullet (s : String) : String :=
  match (wsSplit s.data).2 with
  | c :: rest =>
    if c == '•' || c == '-' || c == '*' then String.mk (dropWs rest) else s
  | [] => s

/-- _extract_features: find the features ul (last ul preceded by an element
sibling mentioning "feature", else the first ul with more than two items),
strip sup markers, and collect the cleaned, deduplicated item texts. -/
def extractFeatures (tile : Node) : List String :=
  let labelled :=
    ((ulCtxs tile).filter (fun c =>
      c.prevSibs.any (fun sib =>
        sib.isElem &&
          (strContainsCI "features" sib.textAll ||
            strContainsCI "feature" sib.textAll)))).getLast?
  let sectionUl : Option Node :=
    match labelled with
    | some c => some c.node
    | none =>
      ((tile.byTag "ul").filter
        (fun (ul : Node) => (ul.byTag "li").length > 2)).head?
  match sectionUl with
  | none => []
  | some ul =>
    let cleaned := (removeSups ul).byTag "li"
    cleaned.foldl
      (fun (acc : List String) (li : Node) =>
        let t0 := li.textStrip
        if t0.isEmpty || lowerStr t0 == "features" || lowerStr t0 == "feature" ||
            t0.length < 3 then acc
        else
          let t := collapseWs (stripBullet (stripTrailingDigits t0))
          if !t.isEmpty && t.length > 3 && !acc.contains t then acc ++ [t]
          else acc)
      []

/-- The discount keyword list of _normalize_plan. -/
def rogersDiscountKeywords : List String :=
  ["discount", "savings", "price lock", "bundle", "family", "per line"]

/-- _normalize_plan: canonical record for a Rogers tile (name falls back to
"Unknown"; the features field is emitted empty, features are only mined for
discounts). -/
def normalizePlan (tile : Node) : PlanRec :=
  let planName := (rogersPlanName tile).getD "Unknown"
  let priceBefore := extractPriceBeforeIncentives tile
  let price := extractFinalPrice tile
  let dataAmount := extractDataAmount tile
  let features := extractFeatures tile
  let discounts := features.filter
    (fun f => rogersDiscountKeywords.any (fun k => strContains k (lowerStr f)))
  { name := planName
    price := price
    regularPrice := priceBefore
    data := dataAmount
    features := []
    discounts := discounts.take 10
    promotions := [] }

/-- strip_rogers_html: locate, dedup, normalize, render.  A normalized dict
is always non-empty (truthy), so every unique tile contributes a record. -/
def stripRogersHtml (raw : String) (doc : Doc) : StripResult :=
  let planTiles := rogersLocate doc
  if planTiles.isEmpty then basicFallback raw
  else
    let uniquePlans := deduplicatePlans planTiles
    let normalizedPlans := uniquePlans.map normalizePlan
    let finalHtml := buildFinalHtml normalizedPlans
    mkResult raw finalHtml normalizedPlans planTiles.length uniquePlans.length

/-! ## Generic soup cleanup operations (the Noise-Stripper steps) -/

mutual

/-- Apply an attribute-list transformation to every element. -/
def Node.mapAttrs (f : List (String × String) → List (String × String)) :
    Node → Node
  | .text s => .text s
  | .elem t a cs => .elem t (f a) (mapAttrsList f cs)

/-- Apply an attribute-list transformation below a sibling list. -/
def mapAttrsList (f : List (String × String) → List (String × String)) :
    List Node → List Node
  | [] => []
  | c :: cs => c.mapAttrs f :: mapAttrsList f cs

end

/-- Delete every attribute whose (name, value) satisfies the predicate
(del tag[attr] loops). -/
def removeAttrsWhere (p : String → String → Bool) (d : Doc) : Doc :=
  mapAttrsList (fun a => a.filter (fun kv => !p kv.1 kv.2)) d

/-- Whether any string inside the node matches re.compile(sub, re.I)
(tag.find(string=re.compile(sub, re.I)) is not None). -/
def nodeHasStringCI (sub : String) (n : Node) : Bool :=
  n.strings.any (fun s => strContainsCI sub s)

/-- Whether any string inside the node contains the substring
(case-sensitive). -/
def nodeHasString (sub : String) (n : Node) : Bool :=
  n.strings.any (fun s => strContains sub s)

mutual

/-- Replace every div satisfying the test by mk(div), outermost first
(div.replace_with over a pre-order snapshot: an inner match inside a
replaced outer div is already detached, so only the outermost replacement
is visible). -/
def Node.replaceDivs (test : Node → Bool) (mk : Node → Node) : Node → Node
  | .text s => .text s
  | .elem t a cs =>
    .elem t a (replaceDivsList test mk cs)

/-- Replace matching divs below a sibling list. -/
def replaceDivsList (test : Node → Bool) (mk : Node → Node) :
    List Node → List Node
  | [] => []
  | c :: cs =>
    (if c.tagOf == "div" && test c then mk c
     else c.replaceDivs test mk) :: replaceDivsList test mk cs

/-- Remove every div satisfying the test, outermost first. -/
def Node.dropDivs (test : Node → Bool) : Node → Node
  | .text s => .text s
  | .elem t a cs => .elem t a (dropDivsList test cs)

/-- Remove matching divs from a sibling list. -/
def dropDivsList (test : Node → Bool) : List Node → List Node
  | [] => []
  | c :: cs =>
    if c.tagOf == "div" && test c then dropDivsList test cs
    else c.dropDivs test :: dropDivsList test cs

end

/-- An empty div: no stripped text and no element descendants. -/
def isEmptyDiv (n : Node) : Bool :=
  n.tagOf == "div" && n.textStrip.isEmpty && (n.findAll Node.isElem).isEmpty

/-- Remove empty divs (each div judged against its state when visited,
ancestors before descendants, as the pre-order decompose loop does). -/
def removeEmptyDivs (d : Doc) : Doc :=
  dropDivsList isEmptyDiv d

/-- Remove every element with one of the given tags, recursively. -/
def removeTagged (tags : List String) (d : Doc) : Doc :=
  pruneList (fun n => tags.contains n.tagOf) d

mutual

/-- Serializer standing in for str(soup) (used only by the Telus
no-tiles-found fallback branch). -/
def Node.render : Node → String
  | .text s => s
  | .elem t a cs =>
    "<" ++ t ++
      String.join (a.map (fun kv => " " ++ kv.1 ++ "=\x22" ++ kv.2 ++ "\x22")) ++
      ">" ++ renderList cs ++ "</" ++ t ++ ">"

/-- Serialize a sibling list. -/
def renderList : List Node → String
  | [] => ""
  | c :: cs => c.render ++ renderList cs

end

/-- Serialize a document. -/
def renderDoc (d : Doc) : String := renderList d

/-! ## Telus strategy (attribute-convention based, variant B) -/

/-- Whether the data-testid attribute contains a substring (the
attrs={'data-testid': lambda x: x and sub in str(x)} filters). -/
def hasTestidSub (sub : String) (n : Node) : Bool :=
  match n.attr? "data-testid" with
  | some v => strContains sub v
  | none => false

/-- Python str.isdigit for ASCII digit strings. -/
def pyIsDigit (s : String) : Bool :=
  !s.isEmpty && s.data.all Char.isDigit

/-- _extract_telus_price: price-lockup node first, then the qualified text
pattern with its "/mo" rewrites, then any plain dollar amount. -/
def extractTelusPrice (tile : Node) : String :=
  let fromLockup :=
    match tile.findFirst (hasTestidSub "plan-price-lockup") with
    | some lockup => scanDollar lockup.textAll
    | none => none
  match fromLockup with
  | some m => m
  | none =>
    let text := tile.textAll
    match scanFirst telusPriceAt text.data with
    | some m =>
      replaceAll " /mo" "/mo" (replaceAll " per month" "/mo" (String.mk m))
    | none =>
      match scanDollar text with
      | some m => m
      | none => "unknown"

/-- _extract_telus_regular_price: pre-discount price from the
before-discounts node or a strikethrough element. -/
def extractTelusRegularPrice (tile : Node) : Option String :=
  let fromSection :=
    match tile.findFirst (hasTestidSub "plan-price-before-discounts") with
    | some sec => scanDollar sec.textAll
    | none => none
  match fromSection with
  | some m => some m
  | none =>
    match tile.findFirst (fun n => n.tagOf == "s") with
    | some strike => scanDollar strike.textAll
    | none => none

/-- _extract_telus_data: data-bucket nodes first (amount plus speed
annotation), then the text patterns. -/
def extractTelusData (tile : Node) : String :=
  let fromBucket :=
    match tile.findFirst (hasTestidSub "mfe-rate-plan-data-bucket-amount") with
    | some bucket =>
      let amount := bucket.textStrip
      match tile.findFirst (hasTestidSub "mfe-rate-plan-data-bucket-speed") with
      | some sp =>
        let speedText := sp.textStrip
        if strContains "GB" speedText then some (amount ++ " GB")
        else some (amount ++ " " ++ speedText)
      | none => some (if pyIsDigit amount then amount ++ " GB" else amount)
    | none => none
  match fromBucket with
  | some v => v
  | none =>
    let text := tile.textAll
    match scanGBAtSpeed text with
    | some m => m
    | none =>
      match scanRogersData text with
      | some m => m
      | none => "unknown"

/-- The non-plan paragraph texts skipped by the Telus name heuristic. -/
def telusSkipLabels : List String :=
  ["features", "unlock these offers", "mobility plans", "talk & text"]

/-- The Telus fallback name heuristic over paragraph texts. -/
def telusNameOk (text : String) : Bool :=
  !text.isEmpty && text.length ≥ 2 &&
  !(hasChar '$' text || strContainsCI "per mo" text || strContainsCI "/mo" text) &&
  !(telusSkipLabels.contains (lowerStr text)) &&
  (match text.data with
   | c :: _ => c.isUpper
   | [] => false) &&
  text.length < 50 && (wordsOf text).length ≤ 5

/-- Telus plan name of _deduplicate_telus_plans: h3 heading, else the first
qualifying paragraph. -/
def telusPlanName (tile : Node) : Option String :=
  let fromH3 :=
    match (tile.byTag "h3").head? with
    | some h3 =>
      let t := h3.textStrip
      if t.isEmpty then none else some t
    | none => none
  match fromH3 with
  | some n => some n
  | none => (((tile.byTag "p").map Node.textStrip).filter telusNameOk).head?

/-- The (name, price, data) key of _deduplicate_telus_plans. -/
def telusKey (tile : Node) : Option String :=
  (telusPlanName tile).map
    (fun n => n ++ "|" ++ extractTelusPrice tile ++ "|" ++ extractTelusData tile)

/-- _deduplicate_telus_plans: first-occurrence dedup by (name, price, data). -/
def deduplicateTelusPlans (tiles : List Node) : List Node :=
  dedupFirst telusKey tiles []

/-- _extract_telus_discount_texts: promotion-callout nodes, then keyword
hits among the stripped strings, deduplicated, first ten. -/
def extractTelusDiscountTexts (tile : Node) : List String :=
  let fromSelectors :=
    ((tile.findAll (fun n => n.attr? "data-testid" == some "promotion-callout-legal-text")).map
        Node.textSpace).filter (fun t => !t.isEmpty) ++
    ((tile.findAll (hasTestidSub "promotion-benefit-text")).map
        Node.textSpace).filter (fun t => !t.isEmpty)
  let keywords := ["discount", "savings", "price lock", "per line", "family"]
  let fromStrings :=
    (tile.strippedStrings.map collapseWs).filter
      (fun t =>
        t.length ≥ 6 && keywords.any (fun k => strContains k (lowerStr t)))
  ((fromSelectors ++ fromStrings).foldl
    (fun (acc : List String) t => if acc.contains t then acc else acc ++ [t])
    []).take 10

/-- The lazy tail ".*?Lock" (re.I): the shortest run of non-newline
characters ending with "Lock", returned with the rest. -/
def lazyUntilLockAt : List Char → Option (List Char × List Char)
  | [] => none
  | c :: rest =>
    match litCI "lock".data (c :: rest) with
    | some (l, r) => some (l, r)
    | none =>
      if c == '\n' then none
      else (lazyUntilLockAt rest).map (fun p => (c :: p.1, p.2))

/-- r'\d+[- ]Year.*?Lock' (re.I): digits, a dash or space, "Year", then the
shortest run of non-newline characters up to "Lock". -/
def yearLockAt (cs : List Char) : Option (List Char × List Char) :=
  match takeDigits cs with
  | ([], _) => none
  | (ds, rest) =>
    match rest with
    | c :: rest2 =>
      if c == '-' || c == ' ' then
        match litCI "year".data rest2 with
        | none => none
        | some (y, rest3) =>
          (lazyUntilLockAt rest3).map (fun p => (ds ++ c :: y ++ p.1, p.2))
      else none
    | [] => none

/-- A literal (re.I) followed by "[^.]*": the literal plus everything up to
the next period. -/
def litThenNonDotAt (lit : String) (cs : List Char) :
    Option (List Char × List Char) :=
  match litCI lit.data cs with
  | none => none
  | some (l, rest) =>
    let tailPart := rest.takeWhile (fun c => c ≠ '.')
    some (l ++ tailPart, rest.drop tailPart.length)

/-- The promotion findall patterns of _normalize_telus_plan, each limited to
its first two matches truncated at 100 characters. -/
def telusPromotions (text : String) : List String :=
  let fuel := text.length + 1
  let run (tryAt : List Char → Option (List Char × List Char)) : List String :=
    (((findAllScan tryAt fuel text.data).map String.mk).take 2).map
      (fun m => String.mk (m.data.take 100))
  run yearLockAt ++ run (litThenNonDotAt "Easy Roam") ++
    run (litThenNonDotAt "discount") ++
    run (litThenNonDotAt "Recurring discount")

/-- The ribbon badge texts recognized by the Telus normalizer. -/
def telusRibbonTexts : List String :=
  ["ONLY AT TELUS", "MOBILITY PLAN", "ROAMING DESTINATIONS"]

/-- _normalize_telus_plan: canonical record for a Telus tile (name falls
back to "Unknown" when the tile has no h3). -/
def normalizeTelusPlan (tile : Node) : PlanRec :=
  let planName :=
    match (tile.byTag "h3").head? with
    | some h3 => h3.textStrip
    | none => "Unknown"
  let price := extractTelusPrice tile
  let regularPrice := extractTelusRegularPrice tile
  let dataAmount := extractTelusData tile
  let eligibleKeywords := ["discount", "price lock", "per line", "bundle", "easy roam"]
  let features :=
    ((tile.byTag "li").map Node.textSpace).filter
      (fun t =>
        !t.isEmpty && t.length > 8 &&
          eligibleKeywords.any (fun k => strContains k (lowerStr t)))
  let discounts := extractTelusDiscountTexts tile
  let text := tile.textAll
  let promotions := telusPromotions text
  let ribbon := telusRibbonTexts.find? (fun rt => strContains rt text)
  { name := planName
    price := price
    regularPrice := regularPrice
    data := dataAmount
    features := features.take 10
    promotions := promotions.take 3
    ribbon := ribbon
    discounts := discounts.take 10 }

/-- The Telus noise-stripping pass over the document (attribute removal,
sup/button decomposition, promotion-callout flattening, ribbon flattening,
empty-div removal), used only when no tiles were deduplicated. -/
def telusClean (d : Doc) : Doc :=
  let d1 := removeAttrsWhere (fun k _ => k == "data-testid") d
  let d2 := removeAttrsWhere (fun k _ => prefixChars "aria-".data k.data) d1
  let d3 := removeAttrsWhere (fun k v => k == "dir" && v == "auto") d2
  let d4 := removeTagged ["sup", "button"] d3
  let mkNote (div : Node) : Node :=
    .elem "p" [("class", "discount-note")] [.text div.textSpace]
  let d5 := replaceDivsList (nodeHasStringCI "Price includes savings") mkNote d4
  let d6 := replaceDivsList (nodeHasStringCI "Unlock these offers") mkNote d5
  let d7 := dropDivsList (nodeHasStringCI "Full plan details") d6
  let flattenRibbon (div : Node) : Node :=
    .elem "div" (match div with
      | .elem _ a _ => a
      | .text _ => []) [.text div.textStrip]
  let d8 := replaceDivsList
    (fun n => telusRibbonTexts.any (fun rt => nodeHasStringCI rt n))
    flattenRibbon d7
  removeEmptyDivs d8

/-- The h3-ancestor card recovery of strip_telus_html Step 4, run on the
cleaned soup when deduplication produced nothing: for each h3, walk at most
three div ancestors and take the first holding exactly one h3. -/
def telusRecoverCards (cleaned : Doc) : List Node :=
  (docCtxs cleaned).foldl
    (fun (acc : List Node) c =>
      if c.node.tagOf == "h3" then
        let chain := c.parents.filter (fun p => p.tagOf == "div")
        match chain.head? with
        | none => acc
        | some p0 =>
          if acc.any (fun q => Node.beq q p0) then acc
          else
            match (chain.take 3).find? (fun p => (p.byTag "h3").length == 1) with
            | some card => acc ++ [card]
            | none => acc
      else acc)
    []

/-- The Telus tile selectors: tiles by
[data-testid*="mfe-rate-plan-tile-"][data-testid*="-container"], else by
[data-testid*="mfe-rate-plan-card-id-"]. -/
def telusLocate (d : Doc) : List Node :=
  let tiles := docFindAll d (fun n =>
    hasTestidSub "mfe-rate-plan-tile-" n && hasTestidSub "-container" n)
  if tiles.isEmpty then docFindAll d (hasTestidSub "mfe-rate-plan-card-id-")
  else tiles

/-- strip_telus_html with the cleanup pass abstracted (the source fixes it
to telusClean): tiles are located, deduplicated and normalized on the
original document before any attribute is removed; the cleaned document is
consulted only when deduplication found nothing. -/
def stripTelusCore (clean : Doc → Doc) (raw : String) (doc : Doc) :
    StripResult :=
  let planTiles := telusLocate doc
  let uniquePlans := deduplicateTelusPlans planTiles
  let normalizedPlans := uniquePlans.map normalizeTelusPlan
  let cleaned := clean doc
  if uniquePlans.isEmpty then
    let planCards := telusRecoverCards cleaned
    if planCards.isEmpty then
      let finalHtml := renderDoc cleaned
      { html := finalHtml
        records := []
        planCount := 0
        tilesBeforeDedup := 0
        tilesAfterDedup := 0
        originalSize := raw.length
        strippedSize := finalHtml.length
        originalTokens := raw.length / 4
        strippedTokens := finalHtml.length / 4
        tokensSaved := (raw.length / 4 : Int) - (finalHtml.length / 4 : Int) }
    else
      let finalHtml := buildFinalHtml normalizedPlans
      mkResult raw finalHtml normalizedPlans planCards.length planCards.length
  else
    let finalHtml := buildFinalHtml normalizedPlans
    mkResult raw finalHtml normalizedPlans planTiles.length uniquePlans.length

/-- strip_telus_html as shipped. -/
def stripTelusHtml (raw : String) (doc : Doc) : StripResult :=
  stripTelusCore telusClean raw doc

/-! ## Bell strategy (container-id based, variant C) -/

/-- Whether the element carries the attribute at all
(find_all(attrs={'data-product-id': True})). -/
def hasAttr (name : String) (n : Node) : Bool :=
  (n.attr? name).isSome

/-- Plan containers: every node with a data-product-id marker. -/
def bellLocate (d : Doc) : List Node :=
  docFindAll d (hasAttr "data-product-id")

/-- The Bell plan name: the first h3 heading, else "Unknown". -/
def bellPlanName (container : Node) : String :=
  match (container.byTag "h3").head? with
  | some h3 => h3.textStrip
  | none => "Unknown"

/-- The conversational / modal phrases that disqualify a Bell heading in
_deduplicate_bell_plans. -/
def bellSkipKeywords : List String :=
  ["are you", "select an", "how would", "please select",
   "would you like", "back to", "change", "new customer"]

/-- The structural rejection shared by the Bell dedup and normalizer:
empty, overlong, or question-like names are dropped. -/
def bellNameReject (planName : String) : Bool :=
  planName.isEmpty || planName.length > 50 || hasChar '?' planName

/-- The (name, price, data) key of _deduplicate_bell_plans; None when the
heading is rejected structurally or by the conversational denylist. -/
def bellKey (container : Node) : Option String :=
  let planName := bellPlanName container
  if bellNameReject planName then none
  else if bellSkipKeywords.any (fun k => strContains k (lowerStr planName)) then
    none
  else
    let text := container.textAll
    let dataAmount := (scanNumGB text).getD "unknown"
    let price := (bellDedupPrice text).getD "unknown"
    some (planName ++ "|" ++ price ++ "|" ++ dataAmount)

/-- _deduplicate_bell_plans: first-occurrence dedup by (name, price, data). -/
def deduplicateBellPlans (containers : List Node) : List Node :=
  dedupFirst bellKey containers []

/-- A word character for the \b boundaries of the Bell text cleanups. -/
def isWordChar (c : Char) : Bool := c.isAlphanum || c == '_'

/-- re.sub(r'\bfootnote\b', '', value, re.I): drop standalone "footnote"
words; prevW tracks whether the previous original character was a word
character. -/
def subFootnote : Nat → Bool → List Char → List Char
  | 0, _, l => l
  | _ + 1, _, [] => []
  | fuel + 1, prevW, c :: cs =>
    match (if prevW then none else litCI "footnote".data (c :: cs)) with
    | some (_, rest) =>
      if (match rest.head? with
          | some r => isWordChar r
          | none => false) then
        c :: subFootnote fuel (isWordChar c) cs
      else
        -- the literal "footnote" consumed exactly 8 characters, so the
        -- remainder after the match is cs.drop 7
        subFootnote fuel true (cs.drop 7)
    | none => c :: subFootnote fuel (isWordChar c) cs

/-- The _clean_text helper of _normalize_bell_plan: collapse whitespace,
drop standalone "footnote" words, collapse again. -/
def bellCleanText (s : String) : String :=
  let cs := (collapseWs s).data
  collapseWs (String.mk (subFootnote cs.length false cs))

/-- re.sub(r'\s*\b\d+\s*$', '', snippet).strip(): drop a trailing standalone
number (footnote index) together with the whitespace around it. -/
def stripTrailingNum (s : String) : String :=
  let rev := s.data.reverse
  let r1 := rev.dropWhile Char.isWhitespace
  let ds := r1.takeWhile Char.isDigit
  if ds.isEmpty then pyStrip s
  else
    let afterD := r1.drop ds.length
    let boundaryOk := match afterD.head? with
      | some c => !isWordChar c
      | none => true
    if boundaryOk then
      pyStrip (String.mk (afterD.dropWhile Char.isWhitespace).reverse)
    else pyStrip s

/-- Whether the class attribute, split on whitespace, contains the token
(the CSS .token selector). -/
def hasClassToken (tok : String) (n : Node) : Bool :=
  match n.attr? "class" with
  | some c => (wordsOf c).contains tok
  | none => false

/-- container.select('.g-card-plan__features li'), else every li. -/
def bellFeatureItems (container : Node) : List Node :=
  let selected :=
    (container.findAll (hasClassToken "g-card-plan__features")).flatMap
      (fun sec => sec.byTag "li")
  if selected.isEmpty then container.byTag "li" else selected

/-- The promotion keyword list of _normalize_bell_plan. -/
def bellPromotionKeywords : List String :=
  ["offer", "bonus", "included", "price lock", "perplexity", "promo",
   "credit", "bundle"]

/-- The discount keyword list of _normalize_bell_plan. -/
def bellDiscountKeywords : List String :=
  ["discount", "price lock", "bundle", "per line", "savings", "credit",
   "autopay"]

/-- The feature-scan state of the Bell normalizer. -/
structure BellFeatState where
  features : List String := []
  network : Option String := none
  roaming : Option String := none
  promotions : List String := []
deriving Repr

/-- The feature/benefit line scan of _normalize_bell_plan. -/
def bellScanFeatures (items : List Node) : BellFeatState :=
  items.foldl
    (fun st li =>
      let s0 := li.textSpace
      if s0.isEmpty then st
      else
        let s1 := bellCleanText (stripTrailingNum (collapseWs s0))
        if s1.isEmpty then st
        else
          let feats :=
            if st.features.contains s1 then st.features
            else st.features ++ [s1]
          let lower := lowerStr s1
          let nw :=
            match st.network with
            | some v => some v
            | none =>
              if ["5g", "lte", "network"].any (fun k => strContains k lower)
              then some s1 else none
          let rm :=
            match st.roaming with
            | some v => some v
            | none => if strContains "roam" lower then some s1 else none
          let promos :=
            if bellPromotionKeywords.any (fun k => strContains k lower) then
              st.promotions ++ [s1]
            else st.promotions
          { features := feats, network := nw, roaming := rm,
            promotions := promos })
    {}

/-- Order-preserving exact-text dedup (_dedupe of _normalize_bell_plan). -/
def dedupeTexts (values : List String) : List String :=
  values.foldl
    (fun (acc : List String) v =>
      if !v.isEmpty && !acc.contains v then acc ++ [v] else acc)
    []

/-- _normalize_bell_plan: canonical record for a Bell container; None only
when the heading is empty, overlong or question-like (a container with no
h3 is normalized under the placeholder name "Unknown"). -/
def normalizeBellPlan (container : Node) : Option PlanRec :=
  let planName := bellPlanName container
  if bellNameReject planName then none
  else
    let text := container.textSpace
    let regularPrice :=
      match container.findFirst (fun n => n.tagOf == "s") with
      | some strike => scanDollar strike.textAll
      | none => none
    let primaryPrice :=
      match scanFirst bellContextPriceAt text.data with
      | some body => "$" ++ String.mk body
      | none =>
        let meaningful :=
          (bellAllPrices text).filter (fun p => p ≠ "$0" && p ≠ "$0.00")
        match meaningful.head? with
        | some p => p
        | none => "unknown"
    let dataAmount := (scanNumGB text).getD "unknown"
    let st := bellScanFeatures (bellFeatureItems container)
    let ulDiscounts :=
      (container.byTag "ul").flatMap
        (fun ul =>
          if strContains "All plans include" ul.textSpace then []
          else
            (ul.byTag "li").filterMap
              (fun li =>
                let snippet := bellCleanText li.textSpace
                if bellDiscountKeywords.any
                    (fun k => strContains k (lowerStr snippet)) then some snippet
                else none))
    let captions := container.findAll (hasClassToken "g-card-plan__caption")
    let capSplit :=
      captions.foldl
        (fun (acc : List String × List String) cap =>
          let capText := cap.textSpace
          if capText.isEmpty then acc
          else
            let cleaned := bellCleanText capText
            if bellDiscountKeywords.any
                (fun k => strContains k (lowerStr cleaned)) then
              (acc.1 ++ [cleaned], acc.2)
            else (acc.1, acc.2 ++ [cleaned]))
        ([], [])
    some
      { name := planName
        price := primaryPrice
        regularPrice := regularPrice
        data := dataAmount
        network := st.network
        roaming := st.roaming
        features := (dedupeTexts st.features).take 12
        discounts := (dedupeTexts (ulDiscounts ++ capSplit.1)).take 10
        promotions := (dedupeTexts (st.promotions ++ capSplit.2)).take 5 }

/-- strip_bell_html: locate by data-product-id, dedup, normalize, render.
The nav/modal/attribute cleanup steps mutate only the soup, which the
returned value no longer reads once the containers are found. -/
def stripBellHtml (raw : String) (doc : Doc) : StripResult :=
  let planContainers := bellLocate doc
  if planContainers.isEmpty then basicFallback raw
  else
    let uniquePlans := deduplicateBellPlans planContainers
    let normalizedPlans := uniquePlans.filterMap normalizeBellPlan
    let finalHtml := buildFinalHtml normalizedPlans
    mkResult raw finalHtml normalizedPlans planContainers.length
      uniquePlans.length

/-! ## Freedom strategy (component-marker based, variant D) -/

/-- Plan components: data-testid exactly "planComponent". -/
def freedomLocate (d : Doc) : List Node :=
  docFindAll d (fun n => n.attr? "data-testid" == some "planComponent")

/-- Python str.title(). -/
def pyTitle (s : String) : String :=
  String.mk
    ((s.data.foldl
      (fun (st : List Char × Bool) c =>
        if c.isAlpha then
          (st.1 ++ [if st.2 then c.toLower else c.toUpper], true)
        else (st.1 ++ [c], false))
      ([], false)).1)

/-- The network inference from container text: "5g" anywhere means "5G+"
(the elif "5G" branch of the source repeats the same test and is
unreachable), else "4g"/"lte" means "4G LTE". -/
def freedomNetworkFromText (containerText : String) : String :=
  if strContainsCI "5g" containerText then "5G+"
  else if strContainsCI "4g" containerText || strContainsCI "lte" containerText
  then "4G LTE"
  else ""

/-- re.match(r'plan-card-(\d+)(gb|mb)-?(\d+g|5g\+?|4g|lte)?', testid, re.I):
the test-id mini-grammar, giving (digits, unit, network-group). -/
def freedomCardParse (testid : String) : Option (String × String × String) :=
  match litCI "plan-card-".data testid.data with
  | none => none
  | some (_, r1) =>
    match takeDigits r1 with
    | ([], _) => none
    | (ds, r2) =>
      let unit : Option (String × List Char) :=
        match litCI "gb".data r2 with
        | some (_, r3) => some ("GB", r3)
        | none =>
          match litCI "mb".data r2 with
          | some (_, r3) => some ("MB", r3)
          | none => none
      match unit with
      | none => none
      | some (u, r3) =>
        let r4 := match r3 with
          | '-' :: t => t
          | _ => r3
        let g3 : List Char :=
          match takeDigits r4 with
          | (d :: dsMore, r5) =>
            match litCI "g".data r5 with
            | some (g, _) => (d :: dsMore) ++ g
            | none =>
              match litCI "5g".data r4 with
              | some (m, r6) =>
                m ++ (match r6 with
                  | '+' :: _ => ['+']
                  | _ => [])
              | none =>
                match litCI "4g".data r4 with
                | some (m, _) => m
                | none =>
                  match litCI "lte".data r4 with
                  | some (m, _) => m
                  | none => []
          | ([], _) =>
            match litCI "lte".data r4 with
            | some (m, _) => m
            | none => []
        some (String.mk ds, u, String.mk g3)

/-- The plan name constructed from the test-id grammar plus network
formatting, shared by _deduplicate_freedom_plans and
_normalize_freedom_plan. -/
def freedomNameFromCard (container : Node) (testid : String) : String :=
  match freedomCardParse testid with
  | some (num, unit, g3) =>
    let network :=
      if !g3.isEmpty then
        let up := upperStr g3
        if up == "5G" then "5G+" else up
      else freedomNetworkFromText container.textAll
    if !network.isEmpty then num ++ unit ++ " " ++ network
    else num ++ unit
  | none =>
    -- fallback re.search(r'plan-card-([^-]+(?:-[^-]+)?)', testid, re.I)
    match scanFirst
        (fun cs =>
          match litCI "plan-card-".data cs with
          | none => none
          | some (_, r1) =>
            let seg1 := r1.takeWhile (fun c => c ≠ '-')
            if seg1.isEmpty then none
            else
              let r2 := r1.drop seg1.length
              match r2 with
              | '-' :: r3 =>
                let seg2 := r3.takeWhile (fun c => c ≠ '-')
                if seg2.isEmpty then some seg1
                else some (seg1 ++ '-' :: seg2)
              | _ => some seg1)
        testid.data with
    | some g1 => pyTitle (replaceAll "-" " " (String.mk g1))
    | none => ""

/-- The Freedom plan name: aria-label, else the test-id grammar, else a
heading not in the heading denylist. -/
def freedomPlanName (container : Node) : String :=
  let fromAria := container.attrD "aria-label"
  if !fromAria.isEmpty then fromAria
  else
    let fromCard :=
      match container.findFirst
          (fun n =>
            match n.attr? "data-testid" with
            | some v => strContainsCI "plan-card-" v
            | none => false) with
      | some planCard => freedomNameFromCard container (planCard.attrD "data-testid")
      | none => ""
    if !fromCard.isEmpty then fromCard
    else
      let headingTags := ["h1", "h2", "h3", "h4", "h5", "h6"]
      (((container.findAll (fun n => headingTags.contains n.tagOf)).map
          Node.textStrip).filter
        (fun t =>
          !t.isEmpty && t.length < 50 &&
            !(["features", "promotions", "roaming"].contains (lowerStr t)))).head?
        |>.getD ""

/-- The Freedom price from container text (the qualified bare-digit pattern,
else a plain dollar amount). -/
def freedomPrice (container : Node) : String :=
  freedomPriceFromText container.textAll

/-- The (name, price, data) key of _deduplicate_freedom_plans (the name
falls back to "Unknown", so every component gets a key). -/
def freedomKey (container : Node) : Option String :=
  let n0 := freedomPlanName container
  let planName := if n0.isEmpty || n0.length > 50 then "Unknown" else n0
  let text := container.textAll
  let dataAmount := (scanNumGB text).getD "unknown"
  some (planName ++ "|" ++ freedomPrice container ++ "|" ++ dataAmount)

/-- _deduplicate_freedom_plans. -/
def deduplicateFreedomPlans (containers : List Node) : List Node :=
  dedupFirst freedomKey containers []

/-- _normalize_freedom_plan: None when no usable name; otherwise the record
with price/data sentinels and the Features section items. -/
def normalizeFreedomPlan (container : Node) : Option PlanRec :=
  let planName := freedomPlanName container
  if planName.isEmpty || planName.length > 50 then none
  else
    let text := container.textAll
    let price := freedomPriceFromText text
    let dataAmount := (scanNumGB text).getD "unknown"
    let sectionItems :=
      match (((container.ctxs []).filter
          (fun c =>
            (c.node.tagOf == "h3" || c.node.tagOf == "h4") &&
              lowerStr c.node.textStrip == "features:")).head?) with
      | some c =>
        match c.parents.head? with
        | some par => (removeSups par).byTag "li"
        | none => []
      | none => []
    let fromSection :=
      (sectionItems.map Node.textStrip).filter
        (fun t => !t.isEmpty && t.length > 5)
    let features :=
      if !fromSection.isEmpty then fromSection
      else
        match ((container.byTag "ul").filter
            (fun ul => (ul.byTag "li").length ≥ 3)).head? with
        | some ul =>
          (((removeSups ul).byTag "li").map Node.textStrip).filter
            (fun t => !t.isEmpty && t.length > 5)
        | none => []
    some
      { name := planName
        price := price
        data := dataAmount
        features := features.take 15 }

/-- strip_freedom_html: locate planComponent nodes, dedup, normalize,
render (the aria/sup/button/empty-div removal mutates only the soup). -/
def stripFreedomHtml (raw : String) (doc : Doc) : StripResult :=
  let planContainers := freedomLocate doc
  if planContainers.isEmpty then basicFallback raw
  else
    let uniquePlans := deduplicateFreedomPlans planContainers
    let normalizedPlans := uniquePlans.filterMap normalizeFreedomPlan
    let finalHtml := buildFinalHtml normalizedPlans
    mkResult raw finalHtml normalizedPlans planContainers.length
      uniquePlans.length

/-! ## Koodo strategy (two-level grouping, variant E) -/

/-- Whether the data-testid matches re.compile(sub, re.I) (substring,
case-insensitive). -/
def hasTestidCI (sub : String) (n : Node) : Bool :=
  match n.attr? "data-testid" with
  | some v => strContainsCI sub v
  | none => false

/-- re.search(r'mfe-rate-plan-tile-group-\d+$', testid): the test-id ends
with the group marker followed by digits. -/
def isGroupTestid (testid : String) : Bool :=
  let rev := testid.data.reverse
  let ds := rev.takeWhile Char.isDigit
  !ds.isEmpty &&
    prefixChars "mfe-rate-plan-tile-group-".data.reverse (rev.drop ds.length)

/-- The Koodo plan groups: group-marked nodes whose test-id ends in a group
number. -/
def koodoGroups (d : Doc) : List Node :=
  (docFindAll d (hasTestidCI "mfe-rate-plan-tile-group")).filter
    (fun g => isGroupTestid (g.attrD "data-testid"))

/-- data-testid matching re.compile('mfe-rate-plan-tile.*container', re.I):
the tile marker somewhere before the container marker. -/
def isTileContainerTestid (v : String) : Bool :=
  (scanFirst
    (fun cs =>
      match litCI "mfe-rate-plan-tile".data cs with
      | none => none
      | some (_, r1) =>
        if containsSubCI "container".data r1 then some () else none)
    v.data).isSome

/-- The tiles of one group: the tiles-container child, then its tile nodes
(excluding nested group-marked nodes). -/
def koodoGroupTiles (group : Node) : List Node :=
  match group.findFirst (hasTestidCI "mfe-rate-plan-tile-group-tiles-container") with
  | some tilesContainer =>
    (tilesContainer.findAll
      (fun n =>
        match n.attr? "data-testid" with
        | some v => isTileContainerTestid v
        | none => false)).filter
      (fun t => !strContains "group" (lowerStr (t.attrD "data-testid")))
  | none => []

/-- The group label shown in the group header, else "Unknown". -/
def koodoGroupName (group : Node) : String :=
  match group.findFirst (hasTestidCI "mfe-rate-plan-group-name") with
  | some e => e.textStrip
  | none => "Unknown"

/-- The (tile, group name) pairs collected across all groups, in document
order. -/
def koodoTilesWithGroups (d : Doc) : List (Node × String) :=
  (koodoGroups d).flatMap
    (fun g => (koodoGroupTiles g).map (fun t => (t, koodoGroupName g)))

/-- The Koodo data amount of a tile: the data-bucket nodes (amount plus
speed allowance), else the text pattern. -/
def koodoDataAmount (tile : Node) : String :=
  let fromBucket :=
    match tile.findFirst (hasTestidCI "data-bucket-amount") with
    | some amountElem =>
      let amount := amountElem.textStrip
      let speedElem :=
        match tile.findFirst (hasTestidCI "data-bucket-speedAllowance") with
        | some e => some e
        | none => tile.findFirst (hasTestidCI "data-bucket-speed")
      let speedText :=
        match speedElem with
        | some sp => sp.textStrip
        | none => ""
      if !speedText.isEmpty && strContains "Speed" speedText then
        match scanKoodoSpeed speedText with
        | some sp => some (amount ++ " GB at " ++ sp ++ " Speed")
        | none => some (amount ++ " GB " ++ speedText)
      else some (if pyIsDigit amount then amount ++ " GB" else amount)
    | none => none
  match fromBucket with
  | some v => v
  | none =>
    match (scanFirst
        (fun cs =>
          match numGBAt cs with
          | some (m, _) =>
            match gbAtSpeedAt cs with
            | some full => some full
            | none => some m
          | none => none)
        tile.textAll.data).map String.mk with
    | some m => m
    | none => "unknown"

/-- The Koodo price of a tile: the plan-price-lockup node, else the text. -/
def koodoPrice (tile : Node) : String :=
  let fromLockup :=
    match tile.findFirst (hasTestidCI "plan-price-lockup") with
    | some e => koodoPriceOfText e.textStrip
    | none => none
  match fromLockup with
  | some p => p
  | none => (koodoPriceOfText tile.textAll).getD "unknown"

/-- The group-scoped deduplication key of
_deduplicate_koodo_plans_with_groups: group name, data amount and price
(the group label is the scope that separates identical price/data pairs
in different groups). -/
def koodoGroupKey (item : Node × String) : Option String :=
  some (item.2 ++ "|" ++ koodoDataAmount item.1 ++ "|" ++ koodoPrice item.1)

/-- _deduplicate_koodo_plans_with_groups. -/
def deduplicateKoodoPlansWithGroups (items : List (Node × String)) :
    List (Node × String) :=
  dedupFirst koodoGroupKey items []

/-- The group-less key of _deduplicate_koodo_plans (fallback path): the
constructed name (the data amount) and the price. -/
def koodoKey (tile : Node) : Option String :=
  let dataAmount := koodoDataAmount tile
  let planName := if dataAmount ≠ "unknown" then dataAmount else "Unknown"
  some (planName ++ "|" ++ koodoPrice tile)

/-- _deduplicate_koodo_plans (fallback path without groups). -/
def deduplicateKoodoPlans (tiles : List Node) : List Node :=
  dedupFirst koodoKey tiles []

/-- re.sub(r'(\d+GB)([A-Za-z])', r'\1 \2', re.I): put a space between a
data amount and an immediately following letter.  After a replacement the
scan resumes at the letter, which cannot begin a new match, so resuming at
it is equivalent to resuming after it. -/
def koodoGBSpaceFix : Nat → List Char → List Char
  | 0, l => l
  | _ + 1, [] => []
  | fuel + 1, c :: cs =>
    match (match takeDigits (c :: cs) with
      | ([], _) => none
      | (ds, r1) =>
        match litCI "gb".data r1 with
        | some (g, r2) =>
          match r2 with
          | x :: _ =>
            -- the match consumed ds plus the two unit letters
            if x.isAlpha then some (ds ++ g, ds.length + 1) else none
          | [] => none
        | none => none) with
    | some (m, k) => m ++ ' ' :: koodoGBSpaceFix fuel (cs.drop k)
    | none => c :: koodoGBSpaceFix fuel cs

/-- re.sub(r'([a-z])([A-Z])', r'\1 \2'): split camel-case boundaries. -/
def camelSpaceFix : List Char → List Char
  | [] => []
  | [c] => [c]
  | a :: b :: cs =>
    if a.isLower && b.isUpper then a :: ' ' :: camelSpaceFix (b :: cs)
    else a :: camelSpaceFix (b :: cs)

/-- The spacing fixes of the Koodo feature cleanup, composed. -/
def koodoFixSpacing (s : String) : String :=
  String.mk (camelSpaceFix (koodoGBSpaceFix s.data.length s.data))

/-- The feature text cleanup of _normalize_koodo_plan: sup removal, spaced
text, spacing fixes, whitespace collapse. -/
def koodoFeatureText (n : Node) : String :=
  collapseWs (koodoFixSpacing ((removeSups n).textSpace))

/-- _normalize_koodo_plan: the record for a Koodo tile; the name is
constructed from the group label and the data amount, and a tile whose
name degenerates to "Unknown" is dropped. -/
def normalizeKoodoPlan (groupName : Option String) (tile : Node) :
    Option PlanRec :=
  let dataAmount := koodoDataAmount tile
  let planName :=
    match groupName with
    | some g =>
      if !g.isEmpty && g ≠ "Unknown" then
        if dataAmount ≠ "unknown" then g ++ " - " ++ dataAmount
        else g ++ " - Unknown"
      else if dataAmount ≠ "unknown" then dataAmount else "Unknown"
    | none => if dataAmount ≠ "unknown" then dataAmount else "Unknown"
  if planName == "Unknown" ||
      (endsWithStr "Unknown" planName && !strContains " - " planName) then none
  else
    let price := koodoPrice tile
    let allowances :=
      tile.findAll (hasTestidCI "mfe-rate-plan-allowance-description")
    let fromAllowances :=
      (allowances.map koodoFeatureText).filter
        (fun t =>
          !t.isEmpty && t.length > 5 &&
            !(match numGBAt t.data with
              | some _ => true
              | none => false))
    let features :=
      if !fromAllowances.isEmpty then fromAllowances
      else
        match ((tile.byTag "ul").map
            (fun ul =>
              ((ul.byTag "li").map koodoFeatureText).filter
                (fun t => !t.isEmpty && t.length > 5))).find?
            (fun fs => !fs.isEmpty) with
        | some fs => fs
        | none => []
    some
      { name := planName
        price := price
        data := dataAmount
        features := features.take 15 }

/-- The Koodo fallback tile search (no groups found): tile-marked nodes
that are containers but not group nodes. -/
def koodoFallbackTiles (d : Doc) : List Node :=
  (docFindAll d (hasTestidCI "mfe-rate-plan-tile")).filter
    (fun t =>
      let v := lowerStr (t.attrD "data-testid")
      !strContains "group" v && strContains "container" v)

/-- The last per-group tile list assigned by the group loop of
strip_koodo_html (the loop variable plan_tiles is only (re)assigned for
groups that have a tiles container; if no group has one the variable is
never bound and reading it for the statistics raises UnboundLocalError). -/
def koodoLastGroupTiles (d : Doc) : Option (List Node) :=
  ((koodoGroups d).filterMap
    (fun g =>
      match g.findFirst
          (hasTestidCI "mfe-rate-plan-tile-group-tiles-container") with
      | some _ => some (koodoGroupTiles g)
      | none => none)).getLast?

/-! ## Fido strategy (ancestor-search, variant F) -/

/-- Whether a Fido name-span text looks like a plan name (the generic
pattern check, case-sensitive membership). -/
def fidoNameTest (t : String) : Bool :=
  strContains "BYOP" t || strContains "Talk & Text" t || strContains "GB" t ||
    strContains "Complete" t

/-- The Fido plan containers: for each span.text-title-5 whose text passes
the name test, the nearest div/article/section ancestor (at most six levels
of such ancestors) containing a ds-price element.  Containers are appended
per span, duplicates included (the source keeps them; dedup collapses them
later). -/
def fidoLocate (d : Doc) : List Node :=
  (docCtxs d).foldl
    (fun (acc : List Node) c =>
      if c.node.tagOf == "span" && hasClassCI "text-title-5" c.node &&
          fidoNameTest c.node.textStrip then
        let chain := c.parents.filter
          (fun p => ["div", "article", "section"].contains p.tagOf)
        match (chain.take 6).find?
            (fun p => !(p.findAll (hasClassCI "ds-price")).isEmpty) with
        | some found => acc ++ [found]
        | none => acc
      else acc)
    []

/-- The Fido plan name: the text-title-5 span with the "- BYOP Plan" suffix
stripped, else the first short heading. -/
def fidoPlanName (container : Node) : Option String :=
  let fromSpan :=
    match container.findFirst
        (fun n => n.tagOf == "span" && hasClassCI "text-title-5" n) with
    | some sp =>
      let t := pyStrip (replaceAll "- BYOP Plan" "" sp.textStrip)
      if t.isEmpty then none else some t
    | none => none
  match fromSpan with
  | some t => some t
  | none =>
    let headingTags := ["h1", "h2", "h3", "h4", "h5", "h6"]
    ((((container.findAll (fun n => headingTags.contains n.tagOf)).map
          Node.textStrip).filter
        (fun t =>
          !t.isEmpty && t.length < 50 && !strContains "- BYOP Plan" t)).map
      (fun t => pyStrip (replaceAll "- BYOP Plan" "" t))).head?

/-- The (name, price, data) key of _deduplicate_fido_plans (the name falls
back to "Unknown", so every container gets a key). -/
def fidoKey (container : Node) : Option String :=
  let planName :=
    match fidoPlanName container with
    | some n => if n.length > 50 then "Unknown" else n
    | none => "Unknown"
  let text := container.textAll
  let dataAmount := (scanNumGB text).getD "unknown"
  let price :=
    match scanFirst fidoPriceAt text.data with
    | some body => "$" ++ String.mk body
    | none => (scanDollar text).getD "unknown"
  some (planName ++ "|" ++ price ++ "|" ++ dataAmount)

/-- _deduplicate_fido_plans. -/
def deduplicateFidoPlans (containers : List Node) : List Node :=
  dedupFirst fidoKey containers []

/-- _normalize_fido_plan: None without a usable name; the price prefers a
ds-price element and otherwise requires the qualified pattern (no plain
dollar fallback here, unlike the dedup key). -/
def normalizeFidoPlan (container : Node) : Option PlanRec :=
  match fidoPlanName container with
  | none => none
  | some planName =>
    if planName.length > 50 then none
    else
      let text := container.textAll
      let price :=
        match container.findFirst (hasClassCI "ds-price") with
        | some priceElem =>
          match scanDollar priceElem.textStrip with
          | some m => m
          | none =>
            match scanFirst fidoPriceAt text.data with
            | some body => "$" ++ String.mk body
            | none => "unknown"
        | none =>
          match scanFirst fidoPriceAt text.data with
          | some body => "$" ++ String.mk body
          | none => "unknown"
      let dataAmount := (scanNumGB text).getD "unknown"
      let features :=
        match ((container.byTag "ul").map
            (fun ul =>
              (((ul.byTag "li").map (fun li => (removeSups li).textStrip)).filter
                (fun t => !t.isEmpty && t.length > 5)))).find?
            (fun fs => !fs.isEmpty) with
        | some fs => fs
        | none => []
      some
        { name := planName
          price := price
          data := dataAmount
          features := features.take 15 }

/-- strip_fido_html: ancestor-search location, dedup, normalize, render. -/
def stripFidoHtml (raw : String) (doc : Doc) : StripResult :=
  let planContainers := fidoLocate doc
  if planContainers.isEmpty then basicFallback raw
  else
    let uniquePlans := deduplicateFidoPlans planContainers
    let normalizedPlans := uniquePlans.filterMap normalizeFidoPlan
    let finalHtml := buildFinalHtml normalizedPlans
    mkResult raw finalHtml normalizedPlans planContainers.length
      uniquePlans.length

/-! ## Virgin strategy (marker-or-heuristic, variant G) -/

/-- Word-bounded substring search (re.compile(r'\bw\b'), case-sensitive):
an occurrence of w with no word character on either side. -/
def containsWordSub (w : List Char) : Bool → List Char → Bool
  | _, [] => false
  | prevW, c :: cs =>
    (!prevW && prefixChars w (c :: cs) &&
      (match (c :: cs).drop w.length with
       | r :: _ => !isWordChar r
       | [] => true)) ||
    containsWordSub w (isWordChar c) cs

/-- Word-bounded substring test on a string, case-sensitive. -/
def hasWordSub (w s : String) : Bool := containsWordSub w.data false s.data

/-- Word-bounded substring test, case-insensitive. -/
def hasWordSubCI (w s : String) : Bool :=
  containsWordSub (lcChars w.data) false (lcChars s.data)

/-- Class attribute matching re.compile(r'\bplan\b'): the word "plan"
inside the class string. -/
def hasPlanClass (n : Node) : Bool :=
  match n.attr? "class" with
  | some c => hasWordSub "plan" c
  | none => false

/-- Boolean re.search(r'\$\d+', text): a dollar sign directly followed by a
digit. -/
def hasDollarDigit (s : String) : Bool :=
  (scanFirst
    (fun cs =>
      match cs with
      | '$' :: d :: _ => if d.isDigit then some () else none
      | _ => none)
    s.data).isSome

/-- The Virgin plan containers: plan-container custom elements (taking the
inner div.plan when present), else the text heuristic over divs (price plus
data wording within a bounded text length, under a reasonably sized
parent). -/
def virginLocate (d : Doc) : List Node :=
  let pcs := docFindAll d (fun n => n.tagOf == "plan-container")
  if !pcs.isEmpty then
    pcs.map
      (fun pc =>
        match pc.findFirst (fun n => n.tagOf == "div" && hasPlanClass n) with
        | some planDiv => planDiv
        | none => pc)
  else
    ((docCtxs d).filter
      (fun c =>
        c.node.tagOf == "div" &&
        (let text := c.node.textStrip
         hasDollarDigit text &&
         (hasNumData text || hasPayPerUse text || hasTalkAndText text ||
           strContainsCI "basic" text) &&
         100 < text.length && text.length < 3000 &&
         (match c.parents.head? with
          | some par => par.textAll.length < 10000
          | none => true)))).map Ctx.node

/-- The Virgin price: the accss-monthlyPrice node, else the qualified text
pattern, else a plain dollar amount, else "unknown". -/
def virginPrice (container : Node) : String :=
  let fromId :=
    match container.findFirst
        (fun n =>
          match n.attr? "id" with
          | some v => strContainsCI "accss-monthlyPrice-" v
          | none => false) with
    | some priceElem => scanDollar priceElem.textStrip
    | none => none
  match fromId with
  | some p => p
  | none =>
    let text := container.textAll
    match scanFirst virginPriceAt text.data with
    | some body => "$" ++ String.mk body
    | none => (scanDollar text).getD "unknown"

/-- The data-description span of the Virgin strategy: the
planFeatures/RP_DATA span, else the first span mentioning data or talk. -/
def virginDataSpan (container : Node) : Option Node :=
  match container.findFirst
      (fun n =>
        n.tagOf == "span" &&
          (hasClassCI "planFeatures" n || hasClassCI "RP_DATA" n)) with
  | some sp => some sp
  | none =>
    (container.byTag "span").find?
      (fun sp =>
        let t := sp.textStrip
        hasNumData t || strContains "talk" (lowerStr t))

/-- The Virgin data amount: the data span's numeric match or talk-and-text
sentinel, else the container text patterns. -/
def virginDataAmount (container : Node) : String :=
  let fromSpan :=
    match virginDataSpan container with
    | some sp =>
      let dt := sp.textStrip
      match scanNumGBorMB dt with
      | some m => some m
      | none =>
        if hasTalkAndText dt && !hasNumData dt then some "pay per use"
        else none
    | none => none
  match fromSpan with
  | some v => v
  | none =>
    let text := container.textAll
    match scanNumGBorMB text with
    | some m => m
    | none =>
      if hasPayPerUse text then "pay per use"
      else if hasTalkAndText text && !hasNumData text then "pay per use"
      else "unknown"

/-- r'(\d+GB)\s+data[,\s]+talk\s*[&,]\s*text' (re.I), returning group 1. -/
def virginNameDataAt : List Char → Option (List Char)
  | cs =>
    match takeDigits cs with
    | ([], _) => none
    | (ds, r1) =>
      match litCI "gb".data r1 with
      | none => none
      | some (g, r2) =>
        match wsSplit r2 with
        | ([], _) => none
        | (_ :: _, r3) =>
          match litCI "data".data r3 with
          | none => none
          | some (_, r4) =>
            let sepRun := r4.takeWhile (fun c => c == ',' || c.isWhitespace)
            if sepRun.isEmpty then none
            else
              let r5 := r4.drop sepRun.length
              match litCI "talk".data r5 with
              | none => none
              | some (_, r6) =>
                let r7 := (wsSplit r6).2
                match r7 with
                | c :: r8 =>
                  if c == '&' || c == ',' then
                    let r9 := (wsSplit r8).2
                    if (litCI "text".data r9).isSome then some (ds ++ g)
                    else none
                  else none
                | [] => none

/-- The heading texts that disqualify a Virgin heading as a plan name. -/
def virginSkipTexts : List String :=
  ["Warning", "Get", "Affordable", "Find", "Data, Talk and Text",
   "All plans include", "All plans", "Plans include", "New activations only",
   "Internet Members", "Members only"]

/-- The Virgin plan name: data-span pattern, headings, the data amount
itself, then container-text patterns. -/
def virginPlanName (container : Node) (dataAmount : String) : Option String :=
  let fromSpan :=
    match virginDataSpan container with
    | some sp =>
      let dt := sp.textStrip
      match scanFirst numUnitTightAt dt.data with
      | some m => some (String.mk m)
      | none =>
        if hasTalkAndText dt && !hasNumData dt then some "Talk and Text"
        else none
    | none => none
  match fromSpan with
  | some n => some n
  | none =>
    let headingTags := ["h1", "h2", "h3", "h4", "h5", "h6"]
    let fromHeading :=
      (((container.findAll (fun n => headingTags.contains n.tagOf)).map
          Node.textStrip).filter
        (fun t =>
          !t.isEmpty && t.length < 50 &&
            !(virginSkipTexts.any
              (fun sk => strContains (lowerStr sk) (lowerStr t))))).head?
    match fromHeading with
    | some n => some n
    | none =>
      if dataAmount ≠ "unknown" then
        if dataAmount == "pay per use" || dataAmount == "talk and text only"
        then some "Talk and Text"
        else some dataAmount
      else
        let text := container.textAll
        match scanFirst virginNameDataAt text.data with
        | some m => some (String.mk m)
        | none =>
          let first100 := String.mk (text.data.take 100)
          if (talkAndTextAt first100.data).isSome then some "Talk and Text"
          else if hasWordSubCI "basic" first100 then some "Basic"
          else none

/-- The (name, price, data) triple of a Virgin container; None when the
name is missing/overlong or the price is unknown (such candidates are
skipped by the dedup and dropped by the normalizer). -/
def virginFields (container : Node) : Option (String × String × String) :=
  let price := virginPrice container
  let dataAmount := virginDataAmount container
  match virginPlanName container dataAmount with
  | none => none
  | some planName =>
    if planName == "Unknown" || planName.length > 50 || price == "unknown"
    then none
    else some (planName, price, dataAmount)

/-- _deduplicate_virgin_plans: two-level keys — (price, data) first, widened
to (name, price, data) when a colliding candidate carries a different name.
seen maps each taken key to the name of its keeper. -/
def virginDedupGo : List Node → List (String × String) → List Node
  | [], _ => []
  | c :: cs, seen =>
    match virginFields c with
    | none => virginDedupGo cs seen
    | some (nm, pr, da) =>
      let key0 := pr ++ "|" ++ da
      let key :=
        match seen.find? (fun kv => kv.1 == key0) with
        | some kv =>
          if kv.2 ≠ nm then nm ++ "|" ++ pr ++ "|" ++ da else key0
        | none => key0
      if (seen.find? (fun kv => kv.1 == key)).isSome then virginDedupGo cs seen
      else c :: virginDedupGo cs ((key, nm) :: seen)

/-- _deduplicate_virgin_plans. -/
def deduplicateVirginPlans (containers : List Node) : List Node :=
  virginDedupGo containers []

/-- re.match(r'^\$?\d+.*mo', text, re.I): text that starts with a number
(optionally dollar-signed) and mentions "mo" later on the same line. -/
def startsWithPriceMo (s : String) : Bool :=
  let cs := match s.data with
    | '$' :: t => t
    | t => t
  match takeDigits cs with
  | ([], _) => false
  | (_, rest) => containsSubCI "mo".data (rest.takeWhile (fun c => c ≠ '\n'))

/-- re.match(r'^\$?\d+', text): text that starts with a number. -/
def startsWithNum (s : String) : Bool :=
  let cs := match s.data with
    | '$' :: t => t
    | t => t
  match cs with
  | c :: _ => c.isDigit
  | [] => false

/-- dropWs only shortens its input. -/
theorem dropWs_length_le (l : List Char) : (dropWs l).length ≤ l.length := by
  induction l with
  | nil => simp [dropWs]
  | cons c cs ih =>
    simp only [dropWs]
    split
    · exact Nat.le_succ_of_le ih
    · simp

/-- re.split(r'\s{3,}|\.\s+(?=[A-Z])', text): split on long whitespace runs
or a period followed by whitespace and a capital (the period and whitespace
are consumed, the capital is a lookahead). -/
def virginSplitGo : Nat → List Char → List Char → List (List Char)
  | 0, acc, l => [acc.reverse ++ l]
  | _ + 1, acc, [] => [acc.reverse]
  | fuel + 1, acc, c :: cs =>
    if c == '.' && (match wsSplit cs with
        | (_ :: _, u :: _) => u.isUpper
        | _ => false) then
      acc.reverse :: virginSplitGo fuel [] (dropWs cs)
    else if c.isWhitespace && (match cs with
        | a :: b :: _ => a.isWhitespace && b.isWhitespace
        | _ => false) then
      acc.reverse :: virginSplitGo fuel [] (dropWs cs)
    else virginSplitGo fuel (c :: acc) cs

/-- The Virgin feature split into parts. -/
def virginSplit (s : String) : List String :=
  (virginSplitGo s.data.length [] s.data).map String.mk

/-- The li-text skip patterns of the Virgin feature extraction. -/
def virginFeatureSkips : List String :=
  ["new activations only", "tooltip", "view rates", "suspicious call detection"]

/-- The Virgin li-based feature extraction: the first ul yielding parts. -/
def virginULFeatures (container : Node) : List String :=
  match ((container.byTag "ul").map
      (fun ul =>
        (ul.byTag "li").foldl
          (fun (acc : List String) li =>
            let t := collapseWs (removeSups li).textSpace
            if !t.isEmpty && t.length > 5 && !startsWithPriceMo t &&
                !(virginFeatureSkips.any
                  (fun sk => strContains sk (lowerStr t))) then
              (virginSplit t).foldl
                (fun acc2 part =>
                  let p := collapseWs (pyStrip part)
                  if !p.isEmpty && p.length > 5 && !acc2.contains p then
                    acc2 ++ [p]
                  else acc2)
                acc
            else acc)
          [])).find? (fun fs => !fs.isEmpty) with
  | some fs => fs
  | none => []

/-- "Unlimited\s+" with a lazily-empty tail ([^.]*?): the word plus its
whitespace run. -/
def unlimitedWsAt : List Char → Option (List Char × List Char)
  | cs =>
    match litCI "unlimited".data cs with
    | none => none
    | some (m, r1) =>
      match wsSplit r1 with
      | ([], _) => none
      | (w, r2) => some (m ++ w, r2)

/-- "\d+\s*GB" with a lazily-empty tail. -/
def numGBLazyAt : List Char → Option (List Char × List Char) := numGBAt

/-- The Virgin fallback feature patterns (each with a lazily-empty
non-period tail, so each match is just the pattern head). -/
def virginPatternFeatures (containerText : String) : List String :=
  let text := collapseWs containerText
  let fuel := text.length + 1
  let run (tryAt : List Char → Option (List Char × List Char)) : List String :=
    (findAllScan tryAt fuel text.data).map String.mk
  let litRun (lit : String) : List String :=
    run (fun cs => litCI lit.data cs)
  (run unlimitedWsAt ++ run numGBLazyAt ++ litRun "Canada-wide" ++
      litRun "Text").foldl
    (fun (acc : List String) m =>
      let cleaned := pyStrip m
      if cleaned.length > 5 && !startsWithNum cleaned then acc ++ [cleaned]
      else acc)
    []

/-- _normalize_virgin_plan: None when the name is unusable OR THE PRICE IS
UNKNOWN (a named candidate without a parseable price is dropped, not
emitted with a sentinel); otherwise the record with the feature lists. -/
def normalizeVirginPlan (container : Node) : Option PlanRec :=
  match virginFields container with
  | none => none
  | some (planName, price, dataAmount) =>
    let fromUl := virginULFeatures container
    let features :=
      if !fromUl.isEmpty then fromUl
      else virginPatternFeatures (container.textSpace)
    some
      { name := planName
        price := price
        data := dataAmount
        features := features.take 10 }

/-- strip_virgin_html: marker-or-heuristic location, two-level dedup,
normalize, render. -/
def stripVirginHtml (raw : String) (doc : Doc) : StripResult :=
  let planContainers := virginLocate doc
  if planContainers.isEmpty then basicFallback raw
  else
    let uniquePlans := deduplicateVirginPlans planContainers
    let normalizedPlans := uniquePlans.filterMap normalizeVirginPlan
    let finalHtml := buildFinalHtml normalizedPlans
    mkResult raw finalHtml normalizedPlans planContainers.length
      uniquePlans.length

/-- strip_koodo_html: group-aware path when groups exist, tile fallback
otherwise; none models the UnboundLocalError raised when the statistics
read the unassigned per-group tile list. -/
def stripKoodoHtml (raw : String) (doc : Doc) : Option StripResult :=
  let planGroups := koodoGroups doc
  if planGroups.isEmpty then
    let planTiles := koodoFallbackTiles doc
    if planTiles.isEmpty then some (basicFallback raw)
    else
      let uniquePlans := deduplicateKoodoPlans planTiles
      let normalizedPlans := uniquePlans.filterMap (normalizeKoodoPlan none)
      let finalHtml := buildFinalHtml normalizedPlans
      some (mkResult raw finalHtml normalizedPlans planTiles.length
        uniquePlans.length)
  else
    let allTiles := koodoTilesWithGroups doc
    let uniquePlans := deduplicateKoodoPlansWithGroups allTiles
    let normalizedPlans :=
      uniquePlans.filterMap (fun it => normalizeKoodoPlan (some it.2) it.1)
    let finalHtml := buildFinalHtml normalizedPlans
    match koodoLastGroupTiles doc with
    | none => none
    | some lastTiles =>
      some (mkResult raw finalHtml normalizedPlans lastTiles.length
        uniquePlans.length)

/-! ## Deduplication lemmas -/

/-- The first candidate of the list carrying the given key. -/
def firstWithKey [DecidableEq K] (keyOf : α → Option K) (k : K)
    (xs : List α) : Option α :=
  xs.find? (fun x => decide (keyOf x = some k))

/-- Membership in the seen-keys loop, characterized: an element is kept
exactly when it has a key that is not already seen and it is the first
element of the input carrying that key. -/
theorem mem_dedupFirst_iff [DecidableEq K] (keyOf : α → Option K)
    (xs : List α) (seen : List K) (y : α) :
    y ∈ dedupFirst keyOf xs seen ↔
      ∃ k, keyOf y = some k ∧ k ∉ seen ∧ firstWithKey keyOf k xs = some y := by
  induction xs generalizing seen with
  | nil =>
    simp [dedupFirst, firstWithKey]
  | cons x xs ih =>
    cases hk : keyOf x with
    | none =>
      simp only [dedupFirst, hk, ih]
      constructor
      · rintro ⟨k, hky, hks, hf⟩
        refine ⟨k, hky, hks, ?_⟩
        simp [firstWithKey, List.find?, hk] at hf ⊢
        exact hf
      · rintro ⟨k, hky, hks, hf⟩
        refine ⟨k, hky, hks, ?_⟩
        simp [firstWithKey, List.find?, hk] at hf ⊢
        exact hf
    | some kx =>
      by_cases hseen : kx ∈ seen
      · simp only [dedupFirst, hk, if_pos hseen, ih]
        constructor
        · rintro ⟨k, hky, hks, hf⟩
          refine ⟨k, hky, hks, ?_⟩
          have hne : keyOf x ≠ some k := by
            rw [hk]
            intro hkk
            have hkxk : kx = k := Option.some.inj hkk
            exact hks (hkxk ▸ hseen)
          simp [firstWithKey, List.find?, hne] at hf ⊢
          exact hf
        · rintro ⟨k, hky, hks, hf⟩
          refine ⟨k, hky, hks, ?_⟩
          by_cases hkk : kx = k
          · exact absurd (hkk ▸ hseen) hks
          · have hne : keyOf x ≠ some k := by
              rw [hk]
              exact fun h => hkk (Option.some.injEq _ _ ▸ h)
            simp [firstWithKey, List.find?, hne] at hf ⊢
            exact hf
      · simp only [dedupFirst, hk, if_neg hseen]
        constructor
        · intro hy
          rcases List.mem_cons.mp hy with rfl | hy
          · exact ⟨kx, hk, hseen, by simp [firstWithKey, List.find?, hk]⟩
          · rcases (ih (kx :: seen)).mp hy with ⟨k, hky, hks, hf⟩
            have hkk : kx ≠ k := fun h => hks (h ▸ List.mem_cons_self _ _)
            refine ⟨k, hky, fun h => hks (List.mem_cons_of_mem _ h), ?_⟩
            have hne : keyOf x ≠ some k := by
              rw [hk]
              exact fun h => hkk (Option.some.injEq _ _ ▸ h)
            simp [firstWithKey, List.find?, hne] at hf ⊢
            exact hf
        · rintro ⟨k, hky, hks, hf⟩
          by_cases hkk : kx = k
          · subst hkk
            have : y = x := by
              simp [firstWithKey, List.find?, hk] at hf
              exact hf.symm
            simp [this]
          · have hne : keyOf x ≠ some k := by
              rw [hk]
              exact fun h => hkk (Option.some.injEq _ _ ▸ h)
            simp only [firstWithKey, List.find?] at hf
            rw [show (decide (keyOf x = some k)) = false by simp [hne]] at hf
            refine List.mem_cons_of_mem _ ((ih (kx :: seen)).mpr ?_)
            exact ⟨k, hky, by
              intro h
              rcases List.mem_cons.mp h with h | h
              · exact hkk h.symm
              · exact hks h, hf⟩

/-- The keys of the kept candidates are pairwise distinct and disjoint from
the already-seen keys. -/
theorem dedupFirst_keys_nodup [DecidableEq K] (keyOf : α → Option K)
    (xs : List α) (seen : List K) :
    ((dedupFirst keyOf xs seen).filterMap keyOf).Nodup ∧
      ∀ k ∈ (dedupFirst keyOf xs seen).filterMap keyOf, k ∉ seen := by
  induction xs generalizing seen with
  | nil => simp [dedupFirst]
  | cons x xs ih =>
    cases hk : keyOf x with
    | none => simpa [dedupFirst, hk] using ih seen
    | some kx =>
      by_cases hseen : kx ∈ seen
      · simpa [dedupFirst, hk, if_pos hseen] using ih seen
      · have ih' := ih (kx :: seen)
        constructor
        · simp only [dedupFirst, hk, if_neg hseen, List.filterMap_cons, hk,
            List.nodup_cons]
          exact ⟨fun hmem => (ih'.2 kx hmem) (List.mem_cons_self _ _), ih'.1⟩
        · intro k hkmem
          simp only [dedupFirst, hk, if_neg hseen, List.filterMap_cons, hk,
            List.mem_cons] at hkmem
          rcases hkmem with rfl | hkmem
          · exact hseen
          · exact fun h => (ih'.2 k hkmem) (List.mem_cons_of_mem _ h)

/-- The dedup loop only discards candidates. -/
theorem dedupFirst_length_le [DecidableEq K] (keyOf : α → Option K)
    (xs : List α) (seen : List K) :
    (dedupFirst keyOf xs seen).length ≤ xs.length := by
  induction xs generalizing seen with
  | nil => simp [dedupFirst]
  | cons x xs ih =>
    cases hk : keyOf x with
    | none =>
      simp only [dedupFirst, hk]
      exact Nat.le_succ_of_le (ih seen)
    | some kx =>
      by_cases hseen : kx ∈ seen
      · simp only [dedupFirst, hk, if_pos hseen]
        exact Nat.le_succ_of_le (ih seen)
      · simp only [dedupFirst, hk, if_neg hseen, List.length_cons]
        exact Nat.succ_le_succ (ih (kx :: seen))

/-! ## Concrete documents used by the scenario claims -/

/-- A Rogers vertical tile with a plan name, a ds-price and a Features
list. -/
def rogersTile (planName priceText dataText : String) : Node :=
  .elem "div" [("class", "dsa-vertical-tile")]
    [.elem "p" [] [.text planName],
     .elem "ds-price" [] [.text priceText],
     .elem "div" []
       [.text "Features", .elem "ul" [] [.elem "li" [] [.text dataText]]]]

/-- Scenario A: four identical Essentials tiles plus one distinct
Essentials tile. -/
def rogersScenarioDoc : Doc :=
  [rogersTile "Essentials" "$70" "60 GB", rogersTile "Essentials" "$70" "60 GB",
   rogersTile "Essentials" "$70" "60 GB", rogersTile "Essentials" "$70" "60 GB",
   rogersTile "Essentials" "$75" "100 GB"]

/-- A Koodo tile with a price lockup and a data-bucket amount. -/
def koodoTile (priceText amountText : String) : Node :=
  .elem "div" [("data-testid", "mfe-rate-plan-tile-7-container")]
    [.elem "div" [("data-testid", "plan-price-lockup-x")] [.text priceText],
     .elem "div" [("data-testid", "data-bucket-amount-x")] [.text amountText]]

/-- A Koodo group with a name header and a tiles container. -/
def koodoGroup (groupName num : String) (tiles : List Node) : Node :=
  .elem "div" [("data-testid", "mfe-rate-plan-tile-group-" ++ num)]
    [.elem "h2" [("data-testid", "mfe-rate-plan-group-name-" ++ num)]
       [.text groupName],
     .elem "div"
       [("data-testid", "mfe-rate-plan-tile-group-tiles-container-" ++ num)]
       tiles]

/-- Scenario C: identical $50 / 10 GB tiles under two differently named
groups. -/
def koodoScenarioDoc : Doc :=
  [koodoGroup "Canada Wide Plans" "1" [koodoTile "$50 per month" "10"],
   koodoGroup "Starter Plans" "2" [koodoTile "$50 per month" "10"]]

/-- A Koodo group marker that contains no tiles container: the group loop
never assigns its per-group tile list, so reading it for the statistics
raises UnboundLocalError. -/
def koodoBareGroupDoc : Doc :=
  [.elem "div" [("data-testid", "mfe-rate-plan-tile-group-1")]
    [.elem "span" [] [.text "hi"]]]

/-- A Bell product container without any h3 heading. -/
def bellHeadinglessDoc : Doc :=
  [.elem "div" [("data-product-id", "p9")]
    [.elem "p" [] [.text "$45/mo with 20 GB"]]]

/-- A Bell product container whose only candidate name text is the modal
question. -/
def bellQuestionDoc : Doc :=
  [.elem "div" [("data-product-id", "p1")]
    [.elem "h3" [] [.text "Are you a new customer?"],
     .elem "p" [] [.text "$65/mo with 50 GB"]]]


/-! ## The two-level Virgin deduplication keeps the first candidate per
(name, price, data) triple

The Virgin dedup stores string keys "price|data", widened to
"name|price|data" when a colliding candidate carries a different name.
Because the price and data components never contain the bar separator,
stored keys decode uniquely back to triples, and the loop keeps exactly
the first candidate per distinct virginFields triple. -/

/-- The level-0 dedup key (price|data) of a Virgin candidate triple. -/
def virginKey0 (t : String × String × String) : String :=
  t.2.1 ++ "|" ++ t.2.2

/-- The widened dedup key (name|price|data) of a Virgin candidate triple. -/
def virginKeyU (t : String × String × String) : String :=
  t.1 ++ "|" ++ t.2.1 ++ "|" ++ t.2.2

/-- The price and data components of a Virgin candidate triple never
contain the bar separator. -/
def virginBarFree (t : String × String × String) : Prop :=
  hasChar '|' t.2.1 = false ∧ hasChar '|' t.2.2 = false

/-- The key under which the Virgin dedup loop files a candidate with the
given fields against the given seen list. -/
def virginStepKey (seen : List (String × String))
    (t : String × String × String) : String :=
  match seen.find? (fun kv => kv.1 == virginKey0 t) with
  | some kv => if kv.2 ≠ t.1 then virginKeyU t else virginKey0 t
  | none => virginKey0 t

/-- Whether the Virgin dedup loop drops a candidate with the given fields
against the given seen list. -/
def virginStepDrop (seen : List (String × String))
    (t : String × String × String) : Bool :=
  (seen.find? (fun kv => kv.1 == virginStepKey seen t)).isSome

/-- The reachable-state invariant of the Virgin dedup loop: S lists the
triples already kept, and seen consists of well-formed keys of members of
S, contains a level-0 key for every member, locates every member, and has
pairwise distinct keys. -/
def virginSeenInv (seen : List (String × String))
    (S : List (String × String × String)) : Prop :=
  (∀ t ∈ S, virginBarFree t) ∧
  (∀ e ∈ seen, (∃ t ∈ S, e = (virginKey0 t, t.1)) ∨
    (∃ t ∈ S, e = (virginKeyU t, t.1))) ∧
  (∀ t ∈ S, virginKey0 t ∈ seen.map Prod.fst) ∧
  (∀ t ∈ S, (virginKey0 t, t.1) ∈ seen ∨ virginKeyU t ∈ seen.map Prod.fst) ∧
  (∀ a ∈ seen, ∀ b ∈ seen, a.1 = b.1 → a = b)

/-- String append concatenates the character lists. -/
theorem strData_append (a b : String) : (a ++ b).data = a.data ++ b.data := rfl

/-- Absence of a character characterized through list membership. -/
theorem hasChar_false_iff {ch : Char} {s : String} :
    hasChar ch s = false ↔ ch ∉ s.data := by
  unfold hasChar
  rw [← Bool.not_eq_true, List.any_eq_true]
  simp

/-- Equal character lists make equal strings. -/
theorem strData_inj {a b : String} (h : a.data = b.data) : a = b := by
  cases a
  cases b
  cases h
  rfl

/-- Splitting at the first bar is unique when neither prefix has one. -/
theorem bar_split_chars : ∀ (p p' d d' : List Char), '|' ∉ p → '|' ∉ p' →
    p ++ '|' :: d = p' ++ '|' :: d' → p = p' ∧ d = d' := by
  intro p
  induction p with
  | nil =>
    intro p' d d' hp hp' h
    cases p' with
    | nil => simpa using h
    | cons b bs =>
      simp only [List.nil_append, List.cons_append] at h
      injection h with h1 h2
      exact absurd (h1 ▸ List.mem_cons_self b bs) hp'
  | cons a as ih =>
    intro p' d d' hp hp' h
    cases p' with
    | nil =>
      simp only [List.cons_append, List.nil_append] at h
      injection h with h1 h2
      exact absurd (h1 ▸ List.mem_cons_self a as) hp
    | cons b bs =>
      simp only [List.cons_append] at h
      injection h with h1 h2
      obtain ⟨hpe, hde⟩ := ih bs d d'
        (fun hm => hp (List.mem_cons_of_mem _ hm))
        (fun hm => hp' (List.mem_cons_of_mem _ hm)) h2
      exact ⟨by rw [h1, hpe], hde⟩

/-- Splitting at the last bar is unique when neither suffix has one. -/
theorem bar_split_last (x x' d d' : List Char) (hd : '|' ∉ d)
    (hd' : '|' ∉ d') (h : x ++ '|' :: d = x' ++ '|' :: d') :
    x = x' ∧ d = d' := by
  have hrev := congrArg List.reverse h
  simp only [List.reverse_append, List.reverse_cons, List.append_assoc,
    List.singleton_append] at hrev
  obtain ⟨h1, h2⟩ := bar_split_chars d.reverse d'.reverse x.reverse x'.reverse
    (fun hm => hd (List.mem_reverse.mp hm))
    (fun hm => hd' (List.mem_reverse.mp hm)) hrev
  exact ⟨List.reverse_injective h2, List.reverse_injective h1⟩

/-- The character list of a bar-joined pair. -/
theorem virginKeyData0 (p d : String) :
    (p ++ "|" ++ d).data = p.data ++ '|' :: d.data := by
  rw [strData_append, strData_append, List.append_assoc]
  rfl

/-- The character list of a bar-joined triple. -/
theorem virginKeyDataU (n p d : String) :
    (n ++ "|" ++ p ++ "|" ++ d).data =
      (n.data ++ '|' :: p.data) ++ '|' :: d.data := by
  rw [virginKeyData0 (n ++ "|" ++ p) d, virginKeyData0 n p]

/-- Componentwise equality of candidate triples. -/
theorem triple_ext {t t' : String × String × String} (h1 : t.1 = t'.1)
    (h2 : t.2.1 = t'.2.1) (h3 : t.2.2 = t'.2.2) : t = t' := by
  obtain ⟨a, b, c⟩ := t
  obtain ⟨a', b', c'⟩ := t'
  simp_all

/-- Level-0 keys of bar-free triples agree exactly on price and data. -/
theorem virginKey0_inj {t t' : String × String × String}
    (hbf : virginBarFree t) (hbf' : virginBarFree t')
    (h : virginKey0 t = virginKey0 t') : t.2.1 = t'.2.1 ∧ t.2.2 = t'.2.2 := by
  have hd := congrArg String.data h
  rw [virginKey0, virginKey0, virginKeyData0, virginKeyData0] at hd
  obtain ⟨h1, h2⟩ := bar_split_chars _ _ _ _
    (hasChar_false_iff.mp hbf.1) (hasChar_false_iff.mp hbf'.1) hd
  exact ⟨strData_inj h1, strData_inj h2⟩

/-- Widened keys of bar-free triples are injective. -/
theorem virginKeyU_inj {t t' : String × String × String}
    (hbf : virginBarFree t) (hbf' : virginBarFree t')
    (h : virginKeyU t = virginKeyU t') : t = t' := by
  have hd := congrArg String.data h
  rw [virginKeyU, virginKeyU, virginKeyDataU, virginKeyDataU] at hd
  obtain ⟨h1, h2⟩ := bar_split_last _ _ _ _
    (hasChar_false_iff.mp hbf.2) (hasChar_false_iff.mp hbf'.2) hd
  obtain ⟨h3, h4⟩ := bar_split_last _ _ _ _
    (hasChar_false_iff.mp hbf.1) (hasChar_false_iff.mp hbf'.1) h1
  exact triple_ext (strData_inj h3) (strData_inj h4) (strData_inj h2)

/-- A level-0 key never coincides with a widened key of bar-free triples. -/
theorem virginKey0_ne_keyU {t t' : String × String × String}
    (hbf : virginBarFree t) (hbf' : virginBarFree t') :
    virginKey0 t ≠ virginKeyU t' := by
  intro h
  have hd := congrArg String.data h
  rw [virginKey0, virginKeyU, virginKeyData0, virginKeyDataU] at hd
  obtain ⟨h1, h2⟩ := bar_split_last _ _ _ _
    (hasChar_false_iff.mp hbf.2) (hasChar_false_iff.mp hbf'.2) hd
  have : '|' ∈ t.2.1.data :=
    h1 ▸ List.mem_append_right _ (List.mem_cons_self _ _)
  exact (hasChar_false_iff.mp hbf.1) this


/-- Leading digit runs contain no bar. -/
theorem takeDigits_no_bar (cs : List Char) : '|' ∉ (takeDigits cs).1 := by
  induction cs with
  | nil => simp [takeDigits]
  | cons a rest ih =>
    rcases htd : takeDigits rest with ⟨ds, rs⟩
    rw [htd] at ih
    by_cases ha : a.isDigit
    · rw [takeDigits, htd]
      simp only [ha, if_true]
      intro hm
      rcases List.mem_cons.mp hm with he | hm
      · rw [← he] at ha
        exact absurd ha (by decide)
      · exact ih hm
    · rw [takeDigits]
      simp [ha]

/-- Leading whitespace runs contain no bar. -/
theorem wsSplit_no_bar (cs : List Char) : '|' ∉ (wsSplit cs).1 := by
  induction cs with
  | nil => simp [wsSplit]
  | cons a rest ih =>
    rcases hws : wsSplit rest with ⟨ws, rs⟩
    rw [hws] at ih
    by_cases ha : a.isWhitespace
    · rw [wsSplit, hws]
      simp only [ha, if_true]
      intro hm
      rcases List.mem_cons.mp hm with he | hm
      · rw [← he] at ha
        exact absurd ha (by decide)
      · exact ih hm
    · rw [wsSplit]
      simp [ha]

/-- A case-insensitive literal match consists of characters whose
lowercase form occurs in the lowercased literal. -/
theorem litCI_chars : ∀ (lit cs m r : List Char),
    litCI lit cs = some (m, r) → ∀ c ∈ m, c.toLower ∈ lcChars lit := by
  intro lit
  induction lit with
  | nil =>
    intro cs m r h c hc
    rw [litCI] at h
    cases h
    simp at hc
  | cons l ls ih =>
    intro cs m r h c hc
    cases cs with
    | nil => rw [litCI] at h; cases h
    | cons x xs =>
      rw [litCI] at h
      by_cases hx : (l.toLower == x.toLower) = true
      · rw [if_pos hx] at h
        cases hli : litCI ls xs with
        | none => rw [hli] at h; cases h
        | some p =>
          rw [hli] at h
          simp only [Option.map_some'] at h
          cases h
          rcases List.mem_cons.mp hc with he | hm
          · rw [he]
            exact List.mem_cons.mpr (Or.inl (eq_of_beq hx).symm)
          · exact List.mem_cons.mpr
              (Or.inr (ih xs p.1 p.2 (by rw [hli]) c hm))
      · rw [if_neg hx] at h
        cases h

/-- A case-insensitive match of a bar-free literal contains no bar. -/
theorem litCI_no_bar {lit cs m r : List Char}
    (h : litCI lit cs = some (m, r)) (hl : '|' ∉ lcChars lit) : '|' ∉ m := by
  intro hm
  exact hl (by simpa using litCI_chars lit cs m r h '|' hm)

/-- The digit body "\d+(\.\d+)?" contains no bar. -/
theorem matchNumBody_no_bar {cs m r : List Char}
    (h : matchNumBody cs = some (m, r)) : '|' ∉ m := by
  unfold matchNumBody at h
  split at h
  · cases h
  next ds rest hne htd =>
    have hds : '|' ∉ ds := by
      have h0 := takeDigits_no_bar cs
      rw [htd] at h0
      exact h0
    split at h
    next rest2 =>
      split at h
      next htd2 =>
        injection h with h1
        injection h1 with h2 h3
        rw [← h2]
        exact hds
      next fs rest3 hne2 htd2 =>
        have hfs : '|' ∉ fs := by
          have h0 := takeDigits_no_bar rest2
          rw [htd2] at h0
          exact h0
        injection h with h1
        injection h1 with h2 h3
        rw [← h2]
        intro hm
        rcases List.mem_append.mp hm with hm | hm
        · exact hds hm
        · rcases List.mem_cons.mp hm with he | hm
          · exact absurd he (by decide)
          · exact hfs hm
    next hrest =>
      injection h with h1
      injection h1 with h2 h3
      rw [← h2]
      exact hds

/-- The plain dollar match "$digits" contains no bar. -/
theorem dollarAt_no_bar {cs m r : List Char}
    (h : dollarAt cs = some (m, r)) : '|' ∉ m := by
  unfold dollarAt at h
  split at h
  next cstl =>
    cases hmb : matchNumBody cstl with
    | none => rw [hmb] at h; cases h
    | some p =>
      rw [hmb] at h
      simp only [Option.map_some'] at h
      cases h
      intro hm
      rcases List.mem_cons.mp hm with he | hm
      · exact absurd he (by decide)
      · exact @matchNumBody_no_bar cstl p.1 p.2 (by rw [hmb]) hm
  next =>
    cases h

/-- A leftmost scan hit is a hit of the matcher on some suffix. -/
theorem scanFirst_exists {α : Type} (tryAt : List Char → Option α)
    (cs : List Char) (r : α) (h : scanFirst tryAt cs = some r) :
    ∃ cs', tryAt cs' = some r := by
  induction cs with
  | nil => rw [scanFirst] at h; cases h
  | cons c rest ih =>
    rw [scanFirst] at h
    cases htry : tryAt (c :: rest) with
    | some v =>
      rw [htry] at h
      exact ⟨c :: rest, htry.trans h⟩
    | none =>
      rw [htry] at h
      exact ih h

/-- A plain dollar-amount search result contains no bar. -/
theorem scanDollar_no_bar {s : String} {m : String}
    (h : scanDollar s = some m) : hasChar '|' m = false := by
  rw [hasChar_false_iff]
  unfold scanDollar at h
  cases hsf : scanFirst dollarAt s.data with
  | none => rw [hsf] at h; cases h
  | some p =>
    rw [hsf] at h
    simp only [Option.map_some'] at h
    cases h
    obtain ⟨cs', hcs'⟩ := scanFirst_exists _ _ _ hsf
    exact @dollarAt_no_bar cs' p.1 p.2 (by rw [hcs'])

/-- The Virgin qualified price body contains no bar. -/
theorem virginPriceAt_no_bar {cs body : List Char}
    (h : virginPriceAt cs = some body) : '|' ∉ body := by
  unfold virginPriceAt at h
  split at h
  next cstl =>
    cases hmb : matchNumBody cstl with
    | none => rw [hmb] at h; cases h
    | some p =>
      rw [hmb] at h
      rcases p with ⟨b, r⟩
      simp only at h
      split at h
      · cases h
      next r2 hsep =>
        split at h
        · injection h with h1
          rw [← h1]
          exact matchNumBody_no_bar (by rw [hmb])
        · cases h
  next =>
    cases h

/-- The digits-unit match of the Virgin data pattern contains no bar. -/
theorem numGBorMBAt_no_bar {cs m : List Char}
    (h : numGBorMBAt cs = some m) : '|' ∉ m := by
  rw [numGBorMBAt] at h
  split at h
  · cases h
  next ds rest hne htd =>
    have hds : '|' ∉ ds := by
      have h0 := takeDigits_no_bar cs
      rw [htd] at h0
      exact h0
    rcases hws : wsSplit rest with ⟨w, r1⟩
    rw [hws] at h
    have hw : '|' ∉ w := by
      have h0 := wsSplit_no_bar rest
      rw [hws] at h0
      exact h0
    have hgb : '|' ∉ lcChars ("gb".data) := by decide
    have hmb : '|' ∉ lcChars ("mb".data) := by decide
    simp only at h
    split at h
    next p psnd hp =>
      injection h with h1
      rw [← h1]
      intro hm
      rcases List.mem_append.mp hm with hm | hm
      · rcases List.mem_append.mp hm with hm | hm
        · exact hds hm
        · exact hw hm
      · exact litCI_no_bar hp hgb hm
    next hnone =>
      cases hli : litCI "mb".data r1 with
      | none => rw [hli] at h; cases h
      | some p =>
        rw [hli] at h
        simp only [Option.map_some'] at h
        injection h with h1
        rw [← h1]
        intro hm
        rcases List.mem_append.mp hm with hm | hm
        · rcases List.mem_append.mp hm with hm | hm
          · exact hds hm
          · exact hw hm
        · exact litCI_no_bar hli hmb hm

/-- The Virgin numeric data match contains no bar. -/
theorem scanNumGBorMB_no_bar {s m : String}
    (h : scanNumGBorMB s = some m) : hasChar '|' m = false := by
  rw [hasChar_false_iff]
  unfold scanNumGBorMB at h
  cases hsf : scanFirst numGBorMBAt s.data with
  | none => rw [hsf] at h; cases h
  | some p =>
    rw [hsf] at h
    simp only [Option.map_some'] at h
    cases h
    obtain ⟨cs', hcs'⟩ := scanFirst_exists _ _ _ hsf
    exact numGBorMBAt_no_bar hcs'






/-- The text-search tail of the Virgin price extraction contains no bar. -/
theorem virginPriceTail_no_bar (c : Node) :
    hasChar '|'
      (match scanFirst virginPriceAt c.textAll.data with
        | some body => "$" ++ String.mk body
        | none => (scanDollar c.textAll).getD "unknown") = false := by
  split
  · rename_i body hscan
    rw [hasChar_false_iff]
    intro hm
    rw [strData_append] at hm
    rcases List.mem_append.mp hm with hm | hm
    · exact absurd hm (by decide)
    · obtain ⟨cs', hcs'⟩ := scanFirst_exists _ _ _ hscan
      exact virginPriceAt_no_bar hcs' hm
  · cases hsd : scanDollar c.textAll with
    | none => decide
    | some p => exact scanDollar_no_bar hsd

/-- The Virgin price string never contains the bar separator: every branch
yields a dollar match, a qualified-price body or the "unknown" sentinel. -/
theorem virginPrice_no_bar (c : Node) : hasChar '|' (virginPrice c) = false := by
  unfold virginPrice
  split
  · rename_i p heq
    dsimp only
    split
    · rename_i q heq2
      exact scanDollar_no_bar heq2
    · exact virginPriceTail_no_bar c
  · dsimp only
    exact virginPriceTail_no_bar c

/-- The text-search tail of the Virgin data extraction contains no bar. -/
theorem virginDataTail_no_bar (c : Node) :
    hasChar '|'
      (match scanNumGBorMB c.textAll with
        | some m => m
        | none =>
          if hasPayPerUse c.textAll then "pay per use"
          else if hasTalkAndText c.textAll && !hasNumData c.textAll
          then "pay per use" else "unknown") = false := by
  split
  · rename_i m hm
    exact scanNumGBorMB_no_bar hm
  · split
    · decide
    · split
      · decide
      · decide

/-- The Virgin data amount never contains the bar separator: every branch
yields a digits-unit match or a fixed sentinel. -/
theorem virginDataAmount_no_bar (c : Node) :
    hasChar '|' (virginDataAmount c) = false := by
  unfold virginDataAmount
  split
  · rename_i sp heq
    dsimp only
    split
    · rename_i m hm
      split at hm
      · rename_i m0 hm0
        injection hm with h1
        rw [← h1]
        exact scanNumGBorMB_no_bar hm0
      · split at hm
        · injection hm with h1
          rw [← h1]
          decide
        · cases hm
    · exact virginDataTail_no_bar c
  · dsimp only
    exact virginDataTail_no_bar c

/-- Every triple produced by virginFields is bar-free in its price and
data components. -/
theorem virginFields_barFree {c : Node} {t : String × String × String}
    (h : virginFields c = some t) : virginBarFree t := by
  unfold virginFields at h
  dsimp only at h
  split at h
  · cases h
  · split at h
    · cases h
    · injection h with h1
      rw [← h1]
      exact ⟨virginPrice_no_bar c, virginDataAmount_no_bar c⟩

/-- Keeping the head when it carries the searched key. -/
theorem firstWithKey_cons_self {K α : Type} [DecidableEq K]
    (keyOf : α → Option K) (k : K) (c : α) (cs : List α)
    (h : keyOf c = some k) : firstWithKey keyOf k (c :: cs) = some c := by
  unfold firstWithKey
  rw [List.find?_cons_of_pos]
  simp [h]

/-- Skipping the head when it does not carry the searched key. -/
theorem firstWithKey_cons_skip {K α : Type} [DecidableEq K]
    (keyOf : α → Option K) (k : K) (c : α) (cs : List α)
    (h : keyOf c ≠ some k) :
    firstWithKey keyOf k (c :: cs) = firstWithKey keyOf k cs := by
  unfold firstWithKey
  rw [List.find?_cons_of_neg]
  simp [h]

/-- The step key when the level-0 key is unseen. -/
theorem virginStepKey_none (seen : List (String × String))
    (t : String × String × String)
    (h : seen.find? (fun kv => kv.1 == virginKey0 t) = none) :
    virginStepKey seen t = virginKey0 t := by
  unfold virginStepKey
  rw [h]

/-- The step key when the level-0 keeper carries the same name. -/
theorem virginStepKey_some_eq (seen : List (String × String))
    (t : String × String × String) (kv : String × String)
    (h : seen.find? (fun kv => kv.1 == virginKey0 t) = some kv)
    (hn : kv.2 = t.1) : virginStepKey seen t = virginKey0 t := by
  unfold virginStepKey
  rw [h]
  simp [hn]

/-- The step key when the level-0 keeper carries another name. -/
theorem virginStepKey_some_ne (seen : List (String × String))
    (t : String × String × String) (kv : String × String)
    (h : seen.find? (fun kv => kv.1 == virginKey0 t) = some kv)
    (hn : ¬kv.2 = t.1) : virginStepKey seen t = virginKeyU t := by
  unfold virginStepKey
  rw [h]
  simp [hn]

/-- One unfolding step of the Virgin dedup loop on a keyless candidate. -/
theorem virginDedupGo_cons_none (c : Node) (cs : List Node)
    (seen : List (String × String)) (h : virginFields c = none) :
    virginDedupGo (c :: cs) seen = virginDedupGo cs seen := by
  simp [virginDedupGo, h]

/-- One unfolding step of the Virgin dedup loop on a keyed candidate. -/
theorem virginDedupGo_cons_some (c : Node) (cs : List Node)
    (seen : List (String × String)) (t : String × String × String)
    (h : virginFields c = some t) :
    virginDedupGo (c :: cs) seen =
      if virginStepDrop seen t = true then virginDedupGo cs seen
      else c :: virginDedupGo cs ((virginStepKey seen t, t.1) :: seen) := by
  obtain ⟨nm, pr, da⟩ := t
  simp only [virginDedupGo, h]
  rfl

/-- The dedup loop drops a candidate exactly when its triple was already
kept. -/
theorem virginStepDrop_iff (seen : List (String × String))
    (S : List (String × String × String)) (hinv : virginSeenInv seen S)
    (t : String × String × String) (hbf : virginBarFree t) :
    virginStepDrop seen t = true ↔ t ∈ S := by
  obtain ⟨hS, hform, hkey0, hfind, huniq⟩ := hinv
  unfold virginStepDrop
  cases hfind0 : seen.find? (fun kv => kv.1 == virginKey0 t) with
  | none =>
    rw [virginStepKey_none seen t hfind0, hfind0]
    simp only [Option.isSome_none, Bool.false_eq_true, false_iff]
    intro htS
    rcases List.mem_map.mp (hkey0 t htS) with ⟨e, he, hfst⟩
    have := List.find?_eq_none.mp hfind0 e he
    simp [hfst] at this
  | some kv =>
    have hkvmem := List.mem_of_find?_eq_some hfind0
    have hkv1 : kv.1 = virginKey0 t := by
      have := List.find?_some hfind0
      simpa using this
    have hkvS : ∃ t', t' ∈ S ∧ kv = (virginKey0 t', t'.1) ∧
        t'.2.1 = t.2.1 ∧ t'.2.2 = t.2.2 := by
      rcases hform kv hkvmem with ⟨t', ht'S, hkve⟩ | ⟨t', ht'S, hkve⟩
      · have hk0 : virginKey0 t' = virginKey0 t := by
          rw [hkve] at hkv1
          exact hkv1
        obtain ⟨h1, h2⟩ := virginKey0_inj (hS t' ht'S) hbf hk0
        exact ⟨t', ht'S, hkve, h1, h2⟩
      · exfalso
        rw [hkve] at hkv1
        exact virginKey0_ne_keyU hbf (hS t' ht'S) hkv1.symm
    obtain ⟨t', ht'S, hkve, hpr, hda⟩ := hkvS
    by_cases hname : kv.2 = t.1
    · have hteq : t' = t := by
        refine triple_ext ?_ hpr hda
        rw [hkve] at hname
        exact hname
      rw [virginStepKey_some_eq seen t kv hfind0 hname, hfind0]
      simp only [Option.isSome_some, true_iff]
      rw [← hteq]
      exact ht'S
    · rw [virginStepKey_some_ne seen t kv hfind0 hname]
      constructor
      · intro hiss
        cases hfindU : seen.find? (fun kv => kv.1 == virginKeyU t) with
        | none => rw [hfindU] at hiss; simp at hiss
        | some kv' =>
          have hkv'mem := List.mem_of_find?_eq_some hfindU
          have hkv'1 : kv'.1 = virginKeyU t := by
            have := List.find?_some hfindU
            simpa using this
          rcases hform kv' hkv'mem with ⟨t'', ht''S, hkv'e⟩ |
            ⟨t'', ht''S, hkv'e⟩
          · exfalso
            rw [hkv'e] at hkv'1
            exact virginKey0_ne_keyU (hS t'' ht''S) hbf hkv'1
          · rw [hkv'e] at hkv'1
            have := virginKeyU_inj (hS t'' ht''S) hbf hkv'1
            rw [← this]
            exact ht''S
      · intro htS
        rcases hfind t htS with hmem0 | hkeyUmem
        · exfalso
          have heq := huniq kv hkvmem (virginKey0 t, t.1) hmem0
            (by rw [hkv1])
          rw [heq] at hname
          exact hname rfl
        · rcases List.mem_map.mp hkeyUmem with ⟨e, he, hfst⟩
          cases hfindU : seen.find? (fun kv => kv.1 == virginKeyU t) with
          | none =>
            exfalso
            have := List.find?_eq_none.mp hfindU e he
            simp [hfst] at this
          | some kv' => simp

/-- The empty state satisfies the invariant. -/
theorem virginSeenInv_nil : virginSeenInv [] [] := by
  unfold virginSeenInv
  simp

/-- The invariant is preserved when the loop keeps a candidate. -/
theorem virginSeenInv_step (seen : List (String × String))
    (S : List (String × String × String)) (hinv : virginSeenInv seen S)
    (t : String × String × String) (hbf : virginBarFree t)
    (hdrop : virginStepDrop seen t = false) :
    virginSeenInv ((virginStepKey seen t, t.1) :: seen) (t :: S) := by
  obtain ⟨hS, hform, hkey0, hfind, huniq⟩ := hinv
  have hnotin : ∀ e ∈ seen, e.1 ≠ virginStepKey seen t := by
    intro e he heq
    unfold virginStepDrop at hdrop
    cases hf : seen.find? (fun kv => kv.1 == virginStepKey seen t) with
    | some kv => rw [hf] at hdrop; simp at hdrop
    | none =>
      have := List.find?_eq_none.mp hf e he
      simp [heq] at this
  have hkeyform : virginStepKey seen t = virginKey0 t ∨
      (virginStepKey seen t = virginKeyU t ∧
        virginKey0 t ∈ seen.map Prod.fst) := by
    cases hf0 : seen.find? (fun kv => kv.1 == virginKey0 t) with
    | none => exact Or.inl (virginStepKey_none seen t hf0)
    | some kv =>
      by_cases hn : kv.2 = t.1
      · exact Or.inl (virginStepKey_some_eq seen t kv hf0 hn)
      · refine Or.inr ⟨virginStepKey_some_ne seen t kv hf0 hn, ?_⟩
        have hkvmem := List.mem_of_find?_eq_some hf0
        have hkv1 : kv.1 = virginKey0 t := by
          have := List.find?_some hf0
          simpa using this
        exact List.mem_map.mpr ⟨kv, hkvmem, hkv1⟩
  refine ⟨?_, ?_, ?_, ?_, ?_⟩
  · intro t' ht'
    rcases List.mem_cons.mp ht' with rfl | ht'
    · exact hbf
    · exact hS t' ht'
  · intro e he
    rcases List.mem_cons.mp he with rfl | he
    · rcases hkeyform with hk | ⟨hk, _⟩
      · exact Or.inl ⟨t, List.mem_cons_self _ _, by rw [hk]⟩
      · exact Or.inr ⟨t, List.mem_cons_self _ _, by rw [hk]⟩
    · rcases hform e he with ⟨t', ht'S, hkve⟩ | ⟨t', ht'S, hkve⟩
      · exact Or.inl ⟨t', List.mem_cons_of_mem _ ht'S, hkve⟩
      · exact Or.inr ⟨t', List.mem_cons_of_mem _ ht'S, hkve⟩
  · intro t' ht'
    rcases List.mem_cons.mp ht' with rfl | ht'
    · rcases hkeyform with hk | ⟨_, hk0⟩
      · exact List.mem_map.mpr
          ⟨(virginStepKey seen t', t'.1), List.mem_cons_self _ _, hk⟩
      · rcases List.mem_map.mp hk0 with ⟨e, he, hfst⟩
        exact List.mem_map.mpr ⟨e, List.mem_cons_of_mem _ he, hfst⟩
    · rcases List.mem_map.mp (hkey0 t' ht') with ⟨e, he, hfst⟩
      exact List.mem_map.mpr ⟨e, List.mem_cons_of_mem _ he, hfst⟩
  · intro t' ht'
    rcases List.mem_cons.mp ht' with rfl | ht'
    · rcases hkeyform with hk | ⟨hk, _⟩
      · exact Or.inl (by rw [← hk]; exact List.mem_cons_self _ _)
      · exact Or.inr (List.mem_map.mpr
          ⟨(virginStepKey seen t', t'.1), List.mem_cons_self _ _, hk⟩)
    · rcases hfind t' ht' with hmem | hmem
      · exact Or.inl (List.mem_cons_of_mem _ hmem)
      · rcases List.mem_map.mp hmem with ⟨e, he, hfst⟩
        exact Or.inr
          (List.mem_map.mpr ⟨e, List.mem_cons_of_mem _ he, hfst⟩)
  · intro a ha b hb hfst
    rcases List.mem_cons.mp ha with rfl | ha
    · rcases List.mem_cons.mp hb with rfl | hb
      · rfl
      · exact absurd hfst.symm (hnotin b hb)
    · rcases List.mem_cons.mp hb with rfl | hb
      · exact absurd hfst (hnotin a ha)
      · exact huniq a ha b hb hfst

/-- Membership in the Virgin dedup output: a candidate is kept exactly
when its triple is new and it is the first candidate carrying it. -/
theorem virginDedupGo_mem (cs : List Node) :
    ∀ (seen : List (String × String))
      (S : List (String × String × String)), virginSeenInv seen S →
      ∀ y, y ∈ virginDedupGo cs seen ↔
        ∃ t, virginFields y = some t ∧ t ∉ S ∧
          firstWithKey virginFields t cs = some y := by
  induction cs with
  | nil =>
    intro seen S hinv y
    simp [virginDedupGo, firstWithKey]
  | cons c cs ih =>
    intro seen S hinv y
    cases hf : virginFields c with
    | none =>
      rw [virginDedupGo_cons_none c cs seen hf, ih seen S hinv y]
      constructor
      · rintro ⟨t, h1, h2, h3⟩
        refine ⟨t, h1, h2, ?_⟩
        rw [firstWithKey_cons_skip _ _ _ _ (by rw [hf]; simp)]
        exact h3
      · rintro ⟨t, h1, h2, h3⟩
        rw [firstWithKey_cons_skip _ _ _ _ (by rw [hf]; simp)] at h3
        exact ⟨t, h1, h2, h3⟩
    | some tc =>
      have hbf : virginBarFree tc := virginFields_barFree hf
      rw [virginDedupGo_cons_some c cs seen tc hf]
      by_cases hdrop : virginStepDrop seen tc = true
      · rw [if_pos hdrop]
        have htcS : tc ∈ S := (virginStepDrop_iff seen S hinv tc hbf).mp hdrop
        rw [ih seen S hinv y]
        constructor
        · rintro ⟨t, h1, h2, h3⟩
          have htne : tc ≠ t := by
            intro he
            rw [he] at htcS
            exact h2 htcS
          refine ⟨t, h1, h2, ?_⟩
          rw [firstWithKey_cons_skip _ _ _ _ (by rw [hf]; simp [htne])]
          exact h3
        · rintro ⟨t, h1, h2, h3⟩
          have htne : tc ≠ t := by
            intro he
            rw [he] at htcS
            exact h2 htcS
          rw [firstWithKey_cons_skip _ _ _ _ (by rw [hf]; simp [htne])] at h3
          exact ⟨t, h1, h2, h3⟩
      · have hdropf : virginStepDrop seen tc = false := by
          simpa using hdrop
        have htcS : tc ∉ S := by
          intro hmem
          rw [(virginStepDrop_iff seen S hinv tc hbf).mpr hmem] at hdropf
          cases hdropf
        rw [if_neg hdrop]
        rw [List.mem_cons,
          ih _ _ (virginSeenInv_step seen S hinv tc hbf hdropf) y]
        constructor
        · rintro (rfl | ⟨t, h1, h2, h3⟩)
          · exact ⟨tc, hf, htcS, firstWithKey_cons_self _ _ _ _ hf⟩
          · have h2' : t ∉ S := fun hm => h2 (List.mem_cons_of_mem _ hm)
            have htne : tc ≠ t := by
              intro he
              exact h2 (he ▸ List.mem_cons_self _ _)
            refine ⟨t, h1, h2', ?_⟩
            rw [firstWithKey_cons_skip _ _ _ _ (by rw [hf]; simp [htne])]
            exact h3
        · rintro ⟨t, h1, h2, h3⟩
          by_cases hteq : t = tc
          · subst hteq
            rw [firstWithKey_cons_self _ _ _ _ hf] at h3
            exact Or.inl (by injection h3 with h4; exact h4.symm)
          · have htne : tc ≠ t := fun he => hteq he.symm
            rw [firstWithKey_cons_skip _ _ _ _ (by rw [hf]; simp [htne])] at h3
            refine Or.inr ⟨t, h1, ?_, h3⟩
            intro hm
            rcases List.mem_cons.mp hm with he | hm
            · exact hteq he
            · exact h2 hm

/-- The triples of the Virgin dedup output are pairwise distinct and new. -/
theorem virginDedupGo_nodup (cs : List Node) :
    ∀ (seen : List (String × String))
      (S : List (String × String × String)), virginSeenInv seen S →
      ((virginDedupGo cs seen).filterMap virginFields).Nodup ∧
      ∀ t ∈ (virginDedupGo cs seen).filterMap virginFields, t ∉ S := by
  induction cs with
  | nil =>
    intro seen S hinv
    simp [virginDedupGo]
  | cons c cs ih =>
    intro seen S hinv
    cases hf : virginFields c with
    | none =>
      rw [virginDedupGo_cons_none c cs seen hf]
      exact ih seen S hinv
    | some tc =>
      have hbf : virginBarFree tc := virginFields_barFree hf
      rw [virginDedupGo_cons_some c cs seen tc hf]
      by_cases hdrop : virginStepDrop seen tc = true
      · rw [if_pos hdrop]
        exact ih seen S hinv
      · have hdropf : virginStepDrop seen tc = false := by
          simpa using hdrop
        have htcS : tc ∉ S := by
          intro hmem
          rw [(virginStepDrop_iff seen S hinv tc hbf).mpr hmem] at hdropf
          cases hdropf
        rw [if_neg hdrop]
        obtain ⟨hnd, hnotin⟩ :=
          ih _ _ (virginSeenInv_step seen S hinv tc hbf hdropf)
        constructor
        · simp only [List.filterMap_cons, hf]
          exact List.nodup_cons.mpr
            ⟨fun hmem => (hnotin tc hmem) (List.mem_cons_self _ _), hnd⟩
        · intro t hmem
          simp only [List.filterMap_cons, hf, List.mem_cons] at hmem
          rcases hmem with rfl | hmem
          · exact htcS
          · exact fun hSm => (hnotin t hmem) (List.mem_cons_of_mem _ hSm)

/-- C1.  For every carrier strategy and every input candidate list in
document order, the kept candidates have pairwise distinct identity keys
and a candidate is kept exactly when it is the first candidate of the
document carrying its key — later candidates with the same key are dropped
and no merging occurs: the generic seen-keys loop dedupFirst has this
property for any key extractor, every single-level _deduplicate_* function
is that loop with its carrier's key extractor (Rogers, Telus, Bell,
Freedom, ungrouped and grouped Koodo, Fido), and the two-level Virgin loop
keeps exactly the first candidate per distinct (name, price, data) triple,
its kept triples pairwise distinct. -/
theorem claim1_dedup_keeps_first_per_key [DecidableEq K]
    (keyOf : α → Option K) (xs : List α) :
    (((dedupFirst keyOf xs []).filterMap keyOf).Nodup ∧
      ∀ y, y ∈ dedupFirst keyOf xs [] ↔
        ∃ k, keyOf y = some k ∧ firstWithKey keyOf k xs = some y) ∧
    (∀ tiles, deduplicatePlans tiles = dedupFirst rogersKey tiles []) ∧
    (∀ tiles, deduplicateTelusPlans tiles = dedupFirst telusKey tiles []) ∧
    (∀ containers,
      deduplicateBellPlans containers = dedupFirst bellKey containers []) ∧
    (∀ containers,
      deduplicateFreedomPlans containers =
        dedupFirst freedomKey containers []) ∧
    (∀ tiles, deduplicateKoodoPlans tiles = dedupFirst koodoKey tiles []) ∧
    (∀ items, deduplicateKoodoPlansWithGroups items =
      dedupFirst koodoGroupKey items []) ∧
    (∀ containers,
      deduplicateFidoPlans containers = dedupFirst fidoKey containers []) ∧
    (∀ containers,
      ((deduplicateVirginPlans containers).filterMap virginFields).Nodup ∧
      ∀ y, y ∈ deduplicateVirginPlans containers ↔
        ∃ t, virginFields y = some t ∧
          firstWithKey virginFields t containers = some y) := by
  refine ⟨⟨(dedupFirst_keys_nodup keyOf xs []).1, fun y => ?_⟩,
    fun _ => rfl, fun _ => rfl, fun _ => rfl, fun _ => rfl, fun _ => rfl,
    fun _ => rfl, fun _ => rfl,
    fun containers => ⟨(virginDedupGo_nodup containers [] []
      virginSeenInv_nil).1, fun y => ?_⟩⟩
  · rw [mem_dedupFirst_iff]
    simp
  · rw [deduplicateVirginPlans,
      virginDedupGo_mem containers [] [] virginSeenInv_nil y]
    simp

/-- C2.  Every carrier entry point maps the empty raw markup (whose parse
has no nodes) to the fallback result with planCount = 0 and no exception;
but the no-exception guarantee fails in general: a Koodo document carrying a
plan-group marker without a tiles container makes strip_koodo_html read the
never-assigned loop variable plan_tiles when building its statistics, which
raises UnboundLocalError (modelled as none). -/
theorem claim2_empty_input_and_koodo_crash :
    (stripRogersHtml "" emptyDoc).planCount = 0 ∧
    (stripTelusHtml "" emptyDoc).planCount = 0 ∧
    (stripBellHtml "" emptyDoc).planCount = 0 ∧
    (stripFreedomHtml "" emptyDoc).planCount = 0 ∧
    stripKoodoHtml "" emptyDoc = some (basicFallback "") ∧
    (stripFidoHtml "" emptyDoc).planCount = 0 ∧
    (stripVirginHtml "" emptyDoc).planCount = 0 ∧
    stripKoodoHtml "" koodoBareGroupDoc = none := by
  decide

/-- C8.  Scenario A on the tile-class carrier: four identical Essentials
$70 / 60 GB tiles plus one Essentials $75 / 100 GB tile reduce to exactly
two output records. -/
theorem claim8_scenario_a_two_records :
    (stripRogersHtml "" rogersScenarioDoc).planCount = 2 ∧
    (stripRogersHtml "" rogersScenarioDoc).tilesBeforeDedup = 5 ∧
    (stripRogersHtml "" rogersScenarioDoc).records.map PlanRec.name =
      ["Essentials", "Essentials"] ∧
    (stripRogersHtml "" rogersScenarioDoc).records.map PlanRec.price =
      ["$70", "$75"] ∧
    (stripRogersHtml "" rogersScenarioDoc).records.map PlanRec.data =
      ["60 GB", "100 GB"] := by
  decide

/-- C6.  Scenario C on the two-level-grouping carrier: identical $50 / 10 GB
tiles under the groups "Canada Wide Plans" and "Starter Plans" produce two
distinct records, because the group name is the leading component of the
deduplication key. -/
theorem claim6_group_scope_breaks_tie :
    (stripKoodoHtml "" koodoScenarioDoc).map StripResult.planCount = some 2 ∧
    (stripKoodoHtml "" koodoScenarioDoc).map
        (fun r => r.records.map PlanRec.name) =
      some ["Canada Wide Plans - 10 GB", "Starter Plans - 10 GB"] ∧
    koodoGroupKey (koodoTile "$50 per month" "10", "Canada Wide Plans") ≠
      koodoGroupKey (koodoTile "$50 per month" "10", "Starter Plans") := by
  decide

/-- C3 counterexample.  A Bell product container with no h3 heading (so no
name can be extracted at all) is not dropped: the dedup keeps it under the
placeholder name "Unknown" and the normalizer emits a record named
"Unknown", contradicting the claim that no record is ever emitted with the
placeholder name. -/
theorem claim3_counterexample_unknown_emitted :
    (stripBellHtml "" bellHeadinglessDoc).records.map PlanRec.name =
      ["Unknown"] ∧
    (stripBellHtml "" bellHeadinglessDoc).planCount = 1 := by
  decide

/-- A Telus tile whose h3 heading is the modal question. -/
def telusQuestionDoc : Doc :=
  [.elem "div" [("data-testid", "mfe-rate-plan-tile-3-container")]
    [.elem "h3" [] [.text "Are you a new customer?"],
     .elem "div" [("data-testid", "plan-price-lockup-3")]
       [.text "$60 per month"]]]

/-- C3 amended.  The question-mark rejection is specific to the
container-id carrier (Bell): a Bell container whose heading contains a
question mark is rejected by both the dedup and the normalizer and
contributes no record (in particular "Are you a new customer?" yields zero
Bell records); but the tile-testid carrier (Telus) takes the h3 text as
the plan name with no question check at all and emits a record named
"Are you a new customer?", and a Bell container with no heading receives
the placeholder name "Unknown" and is emitted. -/
theorem claim3_amended_question_dropped (c : Node)
    (h : hasChar '?' (bellPlanName c) = true) :
    bellKey c = none ∧ normalizeBellPlan c = none ∧
    (stripBellHtml "" bellQuestionDoc).planCount = 0 ∧
    (stripBellHtml "" bellQuestionDoc).records = [] ∧
    (stripTelusHtml "" telusQuestionDoc).records.map PlanRec.name =
      ["Are you a new customer?"] ∧
    (stripTelusHtml "" telusQuestionDoc).planCount = 1 ∧
    (stripBellHtml "" bellHeadinglessDoc).records.map PlanRec.name =
      ["Unknown"] := by
  refine ⟨?_, ?_, by decide, by decide, by decide, by decide, by decide⟩
  · simp [bellKey, bellNameReject, h]
  · simp [normalizeBellPlan, bellNameReject, h]

/-- C3 amended witness: the question container is concretely rejected. -/
theorem claim3_amended_witness :
    hasChar '?' (bellPlanName (.elem "div" [("data-product-id", "p1")]
      [.elem "h3" [] [.text "Are you a new customer?"]])) = true ∧
    bellKey (.elem "div" [("data-product-id", "p1")]
      [.elem "h3" [] [.text "Are you a new customer?"]]) = none :=
  ⟨by decide,
    (claim3_amended_question_dropped
      (.elem "div" [("data-product-id", "p1")]
        [.elem "h3" [] [.text "Are you a new customer?"]]) (by decide)).1⟩

/-- A Telus tile whose price lockup shows the given text. -/
def telusLockupTile (priceText : String) : Node :=
  .elem "div" [("data-testid", "mfe-rate-plan-tile-1-container")]
    [.elem "h3" [] [.text "Stream+"],
     .elem "div" [("data-testid", "plan-price-lockup-1")] [.text priceText]]

/-- A Telus tile with no lockup, carrying the price text in a paragraph. -/
def telusTextTile (priceText : String) : Node :=
  .elem "div" [("data-testid", "mfe-rate-plan-tile-2-container")]
    [.elem "h3" [] [.text "Basic"], .elem "p" [] [.text priceText]]

/-- C4 counterexample.  A candidate whose price text is "$85.00 per month"
does NOT normalize to "$85": the Telus extractor keeps the decimals and
returns "$85.00", and the Rogers final-price extractor even keeps the
qualifier, returning "$85.00 per mo". -/
theorem claim4_counterexample_decimals_kept :
    extractTelusPrice (telusLockupTile "$85.00 per month") = "$85.00" ∧
    "$85.00" ≠ "$85" ∧
    extractFinalPrice (rogersTile "Plan" "$85.00 per month" "1 GB") =
      "$85.00 per mo" := by
  decide

/-- C4 amended.  Price normalization keeps the matched decimals: the
canonical price is "$" followed by the leading digits with their optional
decimal part, so "$85.00 per month" yields "$85.00" (and "$85 per month"
yields "$85"); the "per month" qualifier is dropped by the Telus lockup
path, rewritten to "/mo" by the Telus text path, and kept as " per mo" by
the Rogers final-price path. -/
theorem claim4_amended_price_normalization :
    extractTelusPrice (telusLockupTile "$85.00 per month") = "$85.00" ∧
    extractTelusPrice (telusLockupTile "$85 per month") = "$85" ∧
    extractTelusPrice (telusTextTile "$85.00 per month") = "$85.00/mo" ∧
    extractFinalPrice (rogersTile "Plan" "$85.00 per month" "1 GB") =
      "$85.00 per mo" ∧
    bellDedupPrice "$85.00 per month" = some "$85.00" := by
  decide

/-- The Virgin plan container with a data description but no price text
anywhere. -/
def virginNoPriceDoc : Doc :=
  [.elem "plan-container" []
    [.elem "div" [("class", "plan")]
      [.elem "span" [("class", "planFeatures RP_DATA")]
         [.text "10GB data, talk & text"],
       .elem "ul" [] [.elem "li" [] [.text "Unlimited Canada-wide calling"]]]]]

/-- The located candidate inside virginNoPriceDoc. -/
def virginNoPriceTile : Node :=
  .elem "div" [("class", "plan")]
    [.elem "span" [("class", "planFeatures RP_DATA")]
       [.text "10GB data, talk & text"],
     .elem "ul" [] [.elem "li" [] [.text "Unlimited Canada-wide calling"]]]

/-- A Virgin plan container with a heading and a price but no data text. -/
def virginNoDataDoc : Doc :=
  [.elem "plan-container" []
    [.elem "div" [("class", "plan")]
      [.elem "h3" [] [.text "Starter"],
       .elem "div" [("id", "accss-monthlyPrice-1")] [.text "$35/mo"]]]]

/-- A Bell product container with a valid heading and no price or data
text at all. -/
def bellBareContainer : Node :=
  .elem "div" [("data-product-id", "p2")]
    [.elem "h3" [] [.text "Essential"], .elem "p" [] [.text "Nothing here"]]

/-- C5 counterexample.  The Virgin normalizer violates the claim: a
candidate with the perfectly valid name "10GB" whose price cannot be
extracted is dropped entirely (normalize returns None and the pipeline
emits zero records) instead of being emitted with the price sentinel. -/
theorem claim5_counterexample_virgin_drops_unpriced :
    virginPlanName virginNoPriceTile (virginDataAmount virginNoPriceTile) =
      some "10GB" ∧
    virginPrice virginNoPriceTile = "unknown" ∧
    normalizeVirginPlan virginNoPriceTile = none ∧
    (stripVirginHtml "" virginNoPriceDoc).tilesBeforeDedup = 1 ∧
    (stripVirginHtml "" virginNoPriceDoc).planCount = 0 := by
  decide

/-- A Rogers tile with a plan name but no price or data text at all. -/
def rogersBareDoc : Doc :=
  [.elem "div" [("class", "dsa-vertical-tile")]
    [.elem "p" [] [.text "Super Plan"]]]

/-- A Telus tile with a heading but no price or data text at all. -/
def telusBareDoc : Doc :=
  [.elem "div" [("data-testid", "mfe-rate-plan-tile-9-container")]
    [.elem "h3" [] [.text "Lite"]]]

/-- A Freedom plan component with a heading but no price or data text. -/
def freedomBareNode : Node :=
  .elem "div" [("data-testid", "planComponent")]
    [.elem "h2" [] [.text "Big Gig"]]

/-- The document around the bare Freedom component. -/
def freedomBareDoc : Doc := [freedomBareNode]

/-- A Koodo tile with no price or data markup at all. -/
def koodoBareTile : Node :=
  .elem "div" [("data-testid", "mfe-rate-plan-tile-9-container")] []

/-- The bare Koodo tile under a properly labelled group. -/
def koodoBareTileGroupDoc : Doc :=
  [koodoGroup "Promo Plans" "3" [koodoBareTile]]

/-- A Fido container with a qualifying title span and a priceless ds-price
element. -/
def fidoBareNode : Node :=
  .elem "div" []
    [.elem "span" [("class", "text-title-5")] [.text "Fido Complete"],
     .elem "div" [("class", "ds-price")] [.text "call us"]]

/-- The document around the bare Fido container. -/
def fidoBareDoc : Doc := [fidoBareNode]

/-- A needle is a prefix of itself followed by anything. -/
theorem prefixChars_append_self (needle post : List Char) :
    prefixChars needle (needle ++ post) = true := by
  induction needle with
  | nil => rfl
  | cons a as ih => simp [prefixChars, ih]

/-- A list contains any needle it carries as an infix. -/
theorem containsSub_infix (needle pre post : List Char) :
    containsSub needle (pre ++ (needle ++ post)) = true := by
  induction pre with
  | nil =>
    cases needle with
    | nil => cases post <;> simp [containsSub, prefixChars]
    | cons n ns =>
      have h := prefixChars_append_self (n :: ns) post
      simp only [List.cons_append] at h
      simp [containsSub, h]
  | cons c cs ih => simp [containsSub, ih]

/-- The grouped Koodo plan name always carries the " - " separator. -/
theorem strContains_sep (g x : String) :
    strContains " - " (g ++ " - " ++ x) = true := by
  have h : (g ++ " - " ++ x).data = g.data ++ (" - ".data ++ x.data) := by
    rw [strData_append, strData_append, List.append_assoc]
  unfold strContains
  rw [h]
  exact containsSub_infix _ _ _

/-- The degenerate grouped Koodo plan name also carries the separator. -/
theorem strContains_sep2 (g : String) :
    strContains " - " (g ++ " - Unknown") = true := by
  have hlit : (" - Unknown" : String).data =
      (" - " : String).data ++ ("Unknown" : String).data := by decide
  have h : (g ++ " - Unknown").data =
      g.data ++ (" - ".data ++ "Unknown".data) := by
    rw [strData_append, hlit]
  unfold strContains
  rw [h]
  exact containsSub_infix _ _ _

/-- A grouped Koodo tile with a usable group label is always emitted: the
constructed name carries the " - " separator, so neither drop condition of
_normalize_koodo_plan can fire. -/
theorem normalizeKoodoPlan_grouped_isSome (g : String) (t : Node)
    (hg1 : g.isEmpty = false) (hg2 : g ≠ "Unknown") :
    (normalizeKoodoPlan (some g) t).isSome = true := by
  have hc1 := strContains_sep g (koodoDataAmount t)
  have hc2 := strContains_sep2 g
  have hne1 : (g ++ " - " ++ koodoDataAmount t) ≠ "Unknown" := by
    intro he
    rw [he] at hc1
    exact absurd hc1 (by decide)
  have hne2 : (g ++ " - Unknown") ≠ "Unknown" := by
    intro he
    rw [he] at hc2
    exact absurd hc2 (by decide)
  by_cases hda : koodoDataAmount t = "unknown"
  · simp [normalizeKoodoPlan, hg1, hg2, hda, hne2, hc2]
  · simp [normalizeKoodoPlan, hg1, hg2, hda, hne1, hc1]

/-- C5 amended.  For every carrier except variant G (Virgin), a candidate
with a usable name is still emitted when price or data extraction fails,
the failed fields falling back to their "unknown" sentinels: the Rogers and
Telus normalizers are total (every deduplicated tile yields a record, so
planCount equals tilesAfterDedup), the Bell, Freedom and Fido normalizers
drop a candidate only on name grounds, and a grouped Koodo tile with a
usable group label is always emitted; the Virgin normalizer still emits a
record when only the DATA amount is missing, but a Virgin candidate whose
PRICE is unknown is dropped entirely even with a valid name. -/
theorem claim5_amended_sentinels_except_virgin_price
    (c cf cd t : Node) (nf g raw : String) (d dt : Doc)
    (h : bellNameReject (bellPlanName c) = false)
    (hf1 : (freedomPlanName cf).isEmpty = false)
    (hf2 : (freedomPlanName cf).length ≤ 50)
    (hd1 : fidoPlanName cd = some nf)
    (hd2 : nf.length ≤ 50)
    (hg1 : g.isEmpty = false)
    (hg2 : g ≠ "Unknown")
    (hte : (deduplicateTelusPlans (telusLocate dt)).isEmpty = false) :
    (normalizeBellPlan c).isSome = true ∧
    (normalizeFreedomPlan cf).isSome = true ∧
    (normalizeFidoPlan cd).isSome = true ∧
    (normalizeKoodoPlan (some g) t).isSome = true ∧
    (stripRogersHtml raw d).planCount =
      (stripRogersHtml raw d).tilesAfterDedup ∧
    (stripTelusHtml raw dt).planCount =
      (stripTelusHtml raw dt).tilesAfterDedup ∧
    (stripBellHtml "" [bellBareContainer]).records.map
        (fun r => (r.name, r.price, r.data)) =
      [("Essential", "unknown", "unknown")] ∧
    (stripRogersHtml "" rogersBareDoc).records.map
        (fun r => (r.name, r.price, r.data)) =
      [("Super Plan", "unknown", "unknown")] ∧
    (stripTelusHtml "" telusBareDoc).records.map
        (fun r => (r.name, r.price, r.data)) =
      [("Lite", "unknown", "unknown")] ∧
    (stripFreedomHtml "" freedomBareDoc).records.map
        (fun r => (r.name, r.price, r.data)) =
      [("Big Gig", "unknown", "unknown")] ∧
    (stripKoodoHtml "" koodoBareTileGroupDoc).map
        (fun r => r.records.map (fun p => (p.name, p.price, p.data))) =
      some [("Promo Plans - Unknown", "unknown", "unknown")] ∧
    (stripFidoHtml "" fidoBareDoc).records.map
        (fun r => (r.name, r.price, r.data)) =
      [("Fido Complete", "unknown", "unknown")] ∧
    (stripVirginHtml "" virginNoDataDoc).records.map
        (fun r => (r.name, r.price, r.data)) =
      [("Starter", "$35", "unknown")] ∧
    normalizeVirginPlan virginNoPriceTile = none := by
  refine ⟨?_, ?_, ?_, normalizeKoodoPlan_grouped_isSome g t hg1 hg2, ?_, ?_,
    by decide, by decide, by decide, by decide, by decide, by decide,
    by decide, by decide⟩
  · simp [normalizeBellPlan, h]
  · have h50 : decide ((freedomPlanName cf).length > 50) = false :=
      decide_eq_false (Nat.not_lt.mpr hf2)
    simp [normalizeFreedomPlan, hf1, h50]
  · simp [normalizeFidoPlan, hd1, hd2]
  · simp only [stripRogersHtml]
    split
    · rfl
    · simp [mkResult]
  · simp [stripTelusHtml, stripTelusCore, hte, mkResult]

/-- C5 amended witness: the bare containers concretely satisfy every name
hypothesis and the bare Bell container is emitted. -/
theorem claim5_amended_witness :
    bellNameReject (bellPlanName bellBareContainer) = false ∧
    fidoPlanName fidoBareNode = some "Fido Complete" ∧
    (normalizeBellPlan bellBareContainer).isSome = true :=
  ⟨by decide, by decide,
    (claim5_amended_sentinels_except_virgin_price bellBareContainer
      freedomBareNode fidoBareNode koodoBareTile "Fido Complete"
      "Promo Plans" "" rogersScenarioDoc [telusLockupTile "$85 per month"]
      (by decide) (by decide) (by decide) (by decide) (by decide)
      (by decide) (by decide) (by decide)).1⟩

/-- C7.  The extract-before-strip contract: tiles are located, identity
keys computed and every unique tile normalized on the unmodified document;
when deduplication finds at least one tile the returned markup is exactly
the rendering of those pre-strip records, so it does not depend on the
cleanup pass at all (Telus is stated parametrically in the cleanup
function; the Koodo and Freedom models contain no readable cleanup effect,
and their markup equals the pure pre-strip extraction). -/
theorem claim7_extract_before_strip (f g : Doc → Doc) (raw : String)
    (d dk df : Doc)
    (hte : (deduplicateTelusPlans (telusLocate d)).isEmpty = false)
    (hke : (koodoGroups dk).isEmpty = false)
    (hfe : (freedomLocate df).isEmpty = false) :
    (stripTelusCore f raw d).html = (stripTelusCore g raw d).html ∧
    (stripTelusCore f raw d).html =
      buildFinalHtml
        ((deduplicateTelusPlans (telusLocate d)).map normalizeTelusPlan) ∧
    (∀ r, stripKoodoHtml raw dk = some r →
      r.html =
        buildFinalHtml
          ((deduplicateKoodoPlansWithGroups (koodoTilesWithGroups dk)).filterMap
            (fun it => normalizeKoodoPlan (some it.2) it.1))) ∧
    (stripFreedomHtml raw df).html =
      buildFinalHtml
        ((deduplicateFreedomPlans (freedomLocate df)).filterMap
          normalizeFreedomPlan) := by
  refine ⟨?_, ?_, ?_, ?_⟩
  · simp [stripTelusCore, hte, mkResult]
  · simp [stripTelusCore, hte, mkResult]
  · intro r hr
    simp only [stripKoodoHtml, hke, Bool.false_eq_true, if_false] at hr
    cases hlast : koodoLastGroupTiles dk with
    | none => rw [hlast] at hr; exact absurd hr (by simp)
    | some lastTiles =>
      rw [hlast] at hr
      simp only [Option.some.injEq] at hr
      rw [← hr]
      simp [mkResult]
  · simp [stripFreedomHtml, hfe, mkResult]

/-- C7 witness: concrete one-tile documents for the three carriers, with
the real Telus cleanup versus no cleanup at all. -/
theorem claim7_witness :
    (deduplicateTelusPlans
      (telusLocate [telusLockupTile "$85 per month"])).isEmpty = false ∧
    (koodoGroups koodoScenarioDoc).isEmpty = false ∧
    (freedomLocate [Node.elem "div" [("data-testid", "planComponent")]
      [.elem "h2" [] [.text "Big Plan"],
       .text "only 34/month with 10 GB"]]).isEmpty = false ∧
    (stripTelusCore telusClean "" [telusLockupTile "$85 per month"]).html =
      (stripTelusCore (fun x => x) "" [telusLockupTile "$85 per month"]).html :=
  ⟨by decide, by decide, by decide,
    (claim7_extract_before_strip telusClean (fun x => x) ""
      [telusLockupTile "$85 per month"] koodoScenarioDoc
      [Node.elem "div" [("data-testid", "planComponent")]
        [.elem "h2" [] [.text "Big Plan"], .text "only 34/month with 10 GB"]]
      (by decide) (by decide) (by decide)).1⟩

/-- The two-level Virgin dedup also only discards candidates. -/
theorem virginDedupGo_length_le (cs : List Node)
    (seen : List (String × String)) :
    (virginDedupGo cs seen).length ≤ cs.length := by
  induction cs generalizing seen with
  | nil => simp [virginDedupGo]
  | cons c cs ih =>
    simp only [virginDedupGo]
    cases virginFields c with
    | none => exact Nat.le_succ_of_le (ih seen)
    | some t =>
      simp only
      split
      · exact Nat.le_succ_of_le (ih seen)
      · exact Nat.succ_le_succ (ih _)

/-- C10 counterexample.  The grouped Koodo path reads the loop variable
plan_tiles — the tile list of the LAST group only — for tilesBeforeDedup,
so with two one-tile groups the statistics report tilesAfterDedup = 2 while
tilesBeforeDedup = 1. -/
theorem claim10_counterexample_koodo_stats :
    (stripKoodoHtml "" koodoScenarioDoc).map StripResult.tilesBeforeDedup =
      some 1 ∧
    (stripKoodoHtml "" koodoScenarioDoc).map StripResult.tilesAfterDedup =
      some 2 := by
  decide

/-- C10 amended.  For every carrier except the grouped Koodo path the
statistics satisfy tilesAfterDedup ≤ tilesBeforeDedup and
planCount ≤ tilesAfterDedup; on the grouped Koodo path tilesBeforeDedup
counts only the last processed group's tiles, so only
planCount ≤ tilesAfterDedup survives there. -/
theorem claim10_amended_stats_monotone (raw : String) (d : Doc) :
    ((stripRogersHtml raw d).tilesAfterDedup ≤
        (stripRogersHtml raw d).tilesBeforeDedup ∧
      (stripRogersHtml raw d).planCount ≤
        (stripRogersHtml raw d).tilesAfterDedup) ∧
    ((stripTelusHtml raw d).tilesAfterDedup ≤
        (stripTelusHtml raw d).tilesBeforeDedup ∧
      (stripTelusHtml raw d).planCount ≤
        (stripTelusHtml raw d).tilesAfterDedup) ∧
    ((stripBellHtml raw d).tilesAfterDedup ≤
        (stripBellHtml raw d).tilesBeforeDedup ∧
      (stripBellHtml raw d).planCount ≤
        (stripBellHtml raw d).tilesAfterDedup) ∧
    ((stripFreedomHtml raw d).tilesAfterDedup ≤
        (stripFreedomHtml raw d).tilesBeforeDedup ∧
      (stripFreedomHtml raw d).planCount ≤
        (stripFreedomHtml raw d).tilesAfterDedup) ∧
    ((stripFidoHtml raw d).tilesAfterDedup ≤
        (stripFidoHtml raw d).tilesBeforeDedup ∧
      (stripFidoHtml raw d).planCount ≤
        (stripFidoHtml raw d).tilesAfterDedup) ∧
    ((stripVirginHtml raw d).tilesAfterDedup ≤
        (stripVirginHtml raw d).tilesBeforeDedup ∧
      (stripVirginHtml raw d).planCount ≤
        (stripVirginHtml raw d).tilesAfterDedup) ∧
    (∀ r, stripKoodoHtml raw d = some r →
      r.planCount ≤ r.tilesAfterDedup) := by
  refine ⟨?_, ?_, ?_, ?_, ?_, ?_, ?_⟩
  · simp only [stripRogersHtml]
    split
    · simp [basicFallback]
    · simp only [mkResult, deduplicatePlans]
      exact ⟨dedupFirst_length_le _ _ _, by simp⟩
  · simp only [stripTelusHtml, stripTelusCore]
    split
    · rename_i hUniq
      split
      · simp [basicFallback]
      · have hzero : (deduplicateTelusPlans (telusLocate d)).length = 0 := by
          cases hcase : deduplicateTelusPlans (telusLocate d) with
          | nil => rfl
          | cons a as => rw [hcase] at hUniq; simp at hUniq
        simp [mkResult, hzero]
    · simp only [mkResult, deduplicateTelusPlans]
      exact ⟨dedupFirst_length_le _ _ _, by simp⟩
  · simp only [stripBellHtml]
    split
    · simp [basicFallback]
    · simp only [mkResult, deduplicateBellPlans]
      exact ⟨dedupFirst_length_le _ _ _,
        Nat.le_trans (List.length_filterMap_le _ _) (Nat.le_refl _)⟩
  · simp only [stripFreedomHtml]
    split
    · simp [basicFallback]
    · simp only [mkResult, deduplicateFreedomPlans]
      exact ⟨dedupFirst_length_le _ _ _, List.length_filterMap_le _ _⟩
  · simp only [stripFidoHtml]
    split
    · simp [basicFallback]
    · simp only [mkResult, deduplicateFidoPlans]
      exact ⟨dedupFirst_length_le _ _ _, List.length_filterMap_le _ _⟩
  · simp only [stripVirginHtml]
    split
    · simp [basicFallback]
    · simp only [mkResult, deduplicateVirginPlans]
      exact ⟨virginDedupGo_length_le _ _, List.length_filterMap_le _ _⟩
  · intro r hr
    simp only [stripKoodoHtml] at hr
    split at hr
    · split at hr
      · simp only [Option.some.injEq] at hr
        rw [← hr]
        simp [basicFallback]
      · simp only [Option.some.injEq] at hr
        rw [← hr]
        simp only [mkResult]
        exact List.length_filterMap_le _ _
    · split at hr
      · exact absurd hr (by simp)
      · simp only [Option.some.injEq] at hr
        rw [← hr]
        simp only [mkResult]
        exact List.length_filterMap_le _ _

/-- C10 amended witness: the statistics inequalities at the Scenario A
document, with the Koodo conjunct discharged at the two-group document. -/
theorem claim10_amended_witness :
    (stripRogersHtml "" rogersScenarioDoc).tilesAfterDedup ≤
      (stripRogersHtml "" rogersScenarioDoc).tilesBeforeDedup :=
  (claim10_amended_stats_monotone "" rogersScenarioDoc).1.1

/-! ## Dollar-free documents: the strict-$ price extractors all fail

Infrastructure for C9: a node none of whose strings mentions the dollar
sign, and the fact that every price scanner except Freedom's returns
nothing on such input. -/

/-- No string anywhere in the node contains a dollar sign. -/
def noDollarNode (n : Node) : Bool :=
  n.strings.all (fun s => !hasChar '$' s)

mutual

/-- A traversal context's node only carries strings of the traversed node. -/
theorem ctxs_strings_sub (n : Node) (anc : List Node) (c : Ctx)
    (hc : c ∈ n.ctxs anc) : ∀ s, s ∈ c.node.strings → s ∈ n.strings := by
  cases n with
  | text str => simp [Node.ctxs] at hc
  | elem t a cs =>
    intro s hs
    simp only [Node.strings]
    exact ctxsList_strings_sub cs _ _ c (by simpa [Node.ctxs] using hc) s hs

/-- A traversal context of a sibling list only carries its strings. -/
theorem ctxsList_strings_sub (l : List Node) (anc prev : List Node) (c : Ctx)
    (hc : c ∈ ctxsList anc prev l) :
    ∀ s, s ∈ c.node.strings → s ∈ stringsList l := by
  cases l with
  | nil => simp [ctxsList] at hc
  | cons x xs =>
    intro s hs
    simp only [ctxsList, List.mem_cons, List.mem_append] at hc
    simp only [stringsList, List.mem_append]
    rcases hc with rfl | hx | hxs
    · exact Or.inl hs
    · exact Or.inl (ctxs_strings_sub x anc c hx s hs)
    · exact Or.inr (ctxsList_strings_sub xs anc (x :: prev) c hxs s hs)

end

/-- Dollar-freeness transfers to every traversal context. -/
theorem noDollar_ctxs {n : Node} (hd : noDollarNode n = true) {anc : List Node}
    {c : Ctx} (hc : c ∈ n.ctxs anc) : noDollarNode c.node = true := by
  simp only [noDollarNode, List.all_eq_true] at hd ⊢
  exact fun s hs => hd s (ctxs_strings_sub n anc c hc s hs)

/-- Dollar-freeness transfers to every element found by findAll. -/
theorem noDollar_findAll {n m : Node} (hd : noDollarNode n = true)
    {p : Node → Bool} (hm : m ∈ n.findAll p) : noDollarNode m = true := by
  simp only [Node.findAll, List.mem_map, List.mem_filter] at hm
  rcases hm with ⟨c, ⟨hc, _⟩, rfl⟩
  exact noDollar_ctxs hd hc

/-- Dollar-freeness transfers to a findFirst result. -/
theorem noDollar_findFirst {n m : Node} (hd : noDollarNode n = true)
    {p : Node → Bool} (hm : n.findFirst p = some m) : noDollarNode m = true :=
  noDollar_findAll hd (List.mem_of_mem_head? hm)

/-- A dollar-free character list has no '$' member. -/
theorem not_mem_of_hasChar_false {s : String} (h : hasChar '$' s = false) :
    '$' ∉ s.data := by
  intro hmem
  have h2 : s.data.any (fun d => d == '$') = true :=
    List.any_eq_true.mpr ⟨'$', hmem, by simp⟩
  simp only [hasChar] at h
  rw [h] at h2
  exact Bool.false_ne_true h2

/-- '$' not being a member makes the text dollar-free. -/
theorem hasChar_false_of_not_mem {s : String} (h : '$' ∉ s.data) :
    hasChar '$' s = false := by
  cases hval : hasChar '$' s with
  | false => rfl
  | true =>
    rcases List.any_eq_true.mp hval with ⟨d, hd, hbeq⟩
    have : d = '$' := by simpa using hbeq
    exact absurd (this ▸ hd) h

/-- Appending dollar-free strings stays dollar-free (foldl form). -/
theorem hasChar_foldl_append_false (l : List String) (acc : String)
    (ha : hasChar '$' acc = false) (hl : ∀ s ∈ l, hasChar '$' s = false) :
    hasChar '$' (l.foldl (fun r s => r ++ s) acc) = false := by
  induction l generalizing acc with
  | nil => exact ha
  | cons y ys ih =>
    simp only [List.foldl_cons]
    refine ih (acc ++ y) ?_ (fun s hs => hl s (List.mem_cons_of_mem _ hs))
    simp only [hasChar, String.data_append, List.any_append,
      Bool.or_eq_false_iff]
    exact ⟨ha, hl y (List.mem_cons_self _ _)⟩

/-- No dollar sign in any member string means none in their join. -/
theorem hasChar_join_false {L : List String}
    (h : ∀ s ∈ L, hasChar '$' s = false) :
    hasChar '$' (String.join L) = false := by
  simpa [String.join] using hasChar_foldl_append_false L "" (by decide) h

/-- pyStrip only removes characters. -/
theorem hasChar_pyStrip_false {s : String} (h : hasChar '$' s = false) :
    hasChar '$' (pyStrip s) = false := by
  apply hasChar_false_of_not_mem
  intro hd
  apply not_mem_of_hasChar_false h
  simp only [pyStrip, trimChars] at hd
  have h1 := List.mem_reverse.mp hd
  have h2 := (List.dropWhile_sublist _).subset h1
  have h3 := List.mem_reverse.mp h2
  exact (List.dropWhile_sublist _).subset h3

/-- Space-intercalating dollar-free strings stays dollar-free (go form). -/
theorem hasChar_intercalate_go_false (l : List String) (acc : String)
    (ha : hasChar '$' acc = false) (hl : ∀ s ∈ l, hasChar '$' s = false) :
    hasChar '$' (String.intercalate.go acc " " l) = false := by
  induction l generalizing acc with
  | nil => simpa [String.intercalate.go] using ha
  | cons y ys ih =>
    simp only [String.intercalate.go]
    refine ih (acc ++ " " ++ y) ?_ (fun s hs => hl s (List.mem_cons_of_mem _ hs))
    simp only [hasChar, String.data_append, List.any_append,
      Bool.or_eq_false_iff]
    exact ⟨⟨ha, by decide⟩, hl y (List.mem_cons_self _ _)⟩

/-- No dollar sign in any member string means none in their
space-intercalation. -/
theorem hasChar_intercalate_false {L : List String}
    (h : ∀ s ∈ L, hasChar '$' s = false) :
    hasChar '$' (String.intercalate " " L) = false := by
  cases L with
  | nil => decide
  | cons x xs =>
    simp only [String.intercalate]
    exact hasChar_intercalate_go_false xs x (h x (List.mem_cons_self _ _))
      (fun s hs => h s (List.mem_cons_of_mem _ hs))

/-- On a dollar-free node every text reading is dollar-free. -/
theorem noDollar_texts {n : Node} (hd : noDollarNode n = true) :
    hasChar '$' n.textAll = false ∧ hasChar '$' n.textStrip = false ∧
      hasChar '$' n.textSpace = false ∧
      ∀ s ∈ n.strippedStrings, hasChar '$' s = false := by
  simp only [noDollarNode, List.all_eq_true, Bool.not_eq_true'] at hd
  have hstrip : ∀ s ∈ (n.strings.map pyStrip).filter (fun s => !s.isEmpty),
      hasChar '$' s = false := by
    intro s hs
    simp only [List.mem_filter, List.mem_map] at hs
    rcases hs with ⟨⟨t, ht, rfl⟩, _⟩
    exact hasChar_pyStrip_false (hd t ht)
  exact ⟨hasChar_join_false hd, hasChar_join_false hstrip,
    hasChar_intercalate_false hstrip, fun s hs => hstrip s hs⟩

/-- scanFirst of a matcher that insists on a leading '$' fails on
dollar-free input. -/
theorem scanFirst_dollar_none {β : Type}
    (tryAt : List Char → Option β)
    (hhead : ∀ c cs, c ≠ '$' → tryAt (c :: cs) = none)
    {l : List Char} (hl : '$' ∉ l) : scanFirst tryAt l = none := by
  induction l with
  | nil => rfl
  | cons c cs ih =>
    have hc : c ≠ '$' := fun h => hl (h ▸ List.mem_cons_self _ _)
    have hcs : '$' ∉ cs := fun h => hl (List.mem_cons_of_mem _ h)
    simp [scanFirst, hhead c cs hc, ih hcs]

/-- The anchored dollar matchers all demand a leading '$'. -/
theorem dollarAt_head (c : Char) (cs : List Char) (h : c ≠ '$') :
    dollarAt (c :: cs) = none := by
  unfold dollarAt
  split
  · rename_i heq
    cases heq
    exact absurd rfl h
  · rfl

/-- bellDollarAt demands a leading '$'. -/
theorem bellDollarAt_head (c : Char) (cs : List Char) (h : c ≠ '$') :
    bellDollarAt (c :: cs) = none := by
  unfold bellDollarAt
  split
  · rename_i heq
    cases heq
    exact absurd rfl h
  · rfl

/-- bellContextPriceAt demands a leading '$'. -/
theorem bellContextPriceAt_head (c : Char) (cs : List Char) (h : c ≠ '$') :
    bellContextPriceAt (c :: cs) = none := by
  unfold bellContextPriceAt
  split
  · rename_i heq
    cases heq
    exact absurd rfl h
  · rfl

/-- telusPriceAt demands a leading '$'. -/
theorem telusPriceAt_head (c : Char) (cs : List Char) (h : c ≠ '$') :
    telusPriceAt (c :: cs) = none := by
  unfold telusPriceAt
  split
  · rename_i heq
    cases heq
    exact absurd rfl h
  · rfl

/-- fidoPriceAt demands a leading '$'. -/
theorem fidoPriceAt_head (c : Char) (cs : List Char) (h : c ≠ '$') :
    fidoPriceAt (c :: cs) = none := by
  unfold fidoPriceAt
  split
  · rename_i heq
    cases heq
    exact absurd rfl h
  · rfl

/-- virginPriceAt demands a leading '$'. -/
theorem virginPriceAt_head (c : Char) (cs : List Char) (h : c ≠ '$') :
    virginPriceAt (c :: cs) = none := by
  unfold virginPriceAt
  split
  · rename_i heq
    cases heq
    exact absurd rfl h
  · rfl

/-- scanDollar fails on dollar-free text. -/
theorem scanDollar_none {s : String} (h : hasChar '$' s = false) :
    scanDollar s = none := by
  simp [scanDollar,
    scanFirst_dollar_none dollarAt dollarAt_head (not_mem_of_hasChar_false h)]

/-- The Bell findall collects nothing on dollar-free text. -/
theorem findAllScan_bell_none (fuel : Nat) {l : List Char} (hl : '$' ∉ l) :
    findAllScan bellDollarAt fuel l = [] := by
  induction fuel generalizing l with
  | zero => cases l <;> rfl
  | succ fuel ih =>
    cases l with
    | nil => rfl
    | cons c cs =>
      have hc : c ≠ '$' := fun h => hl (h ▸ List.mem_cons_self _ _)
      have hcs : '$' ∉ cs := fun h => hl (List.mem_cons_of_mem _ h)
      simp [findAllScan, bellDollarAt_head c cs hc, ih hcs]

/-- rogersFinalPriceAt demands a leading '$'. -/
theorem rogersFinalPriceAt_head (c : Char) (cs : List Char) (h : c ≠ '$') :
    rogersFinalPriceAt (c :: cs) = none := by
  unfold rogersFinalPriceAt
  split
  · rename_i heq
    cases heq
    exact absurd rfl h
  · rfl

/-- The Rogers dedup price extraction yields "unknown" on a dollar-free
tile. -/
theorem extractPrice_noDollar {t : Node} (hd : noDollarNode t = true) :
    extractPrice t = "unknown" := by
  have hspan : ((t.byTag "span").filterMap
      (fun sp =>
        if strContainsCI "per mo" sp.textAll then scanDollar sp.textAll
        else none)) = [] := by
    apply List.filterMap_eq_nil_iff.mpr
    intro sp hsp
    have hnd := noDollar_findAll hd (by simpa [Node.byTag] using hsp)
    simp [scanDollar_none (noDollar_texts hnd).1]
  unfold extractPrice
  cases h1 : t.findFirst (fun n => n.tagOf == "ds-price") with
  | some n =>
    have hnd := noDollar_findFirst hd h1
    simp [h1, scanDollar_none (noDollar_texts hnd).1, hspan]
  | none =>
    cases h2 : t.findFirst (hasClassCI "price") with
    | some n =>
      have hnd := noDollar_findFirst hd h2
      simp [h1, h2, scanDollar_none (noDollar_texts hnd).1, hspan]
    | none => simp [h1, h2, hspan]

/-- The Rogers final-price extraction yields "unknown" on a dollar-free
tile. -/
theorem extractFinalPrice_noDollar {t : Node} (hd : noDollarNode t = true) :
    extractFinalPrice t = "unknown" := by
  have hspan : ((t.byTag "span").filterMap
      (fun sp =>
        if strContainsCI "per mo" sp.textAll || strContainsCI "/mo" sp.textAll
        then (scanDollar sp.textAll).map (fun m => m ++ "/mo")
        else none)) = [] := by
    apply List.filterMap_eq_nil_iff.mpr
    intro sp hsp
    have hnd := noDollar_findAll hd (by simpa [Node.byTag] using hsp)
    simp [scanDollar_none (noDollar_texts hnd).1]
  unfold extractFinalPrice
  cases h1 : t.findFirst (fun n => n.tagOf == "ds-price") with
  | some n =>
    have hnd := noDollar_findFirst hd h1
    have hscan : scanFirst rogersFinalPriceAt n.textAll.data = none :=
      scanFirst_dollar_none _ rogersFinalPriceAt_head
        (not_mem_of_hasChar_false (noDollar_texts hnd).1)
    simp only [h1, hscan, Option.map_none', hspan, List.head?_nil,
      Option.getD_none]
  | none =>
    cases h2 : t.findFirst (hasClassCI "price") with
    | some n =>
      have hnd := noDollar_findFirst hd h2
      have hscan : scanFirst rogersFinalPriceAt n.textAll.data = none :=
        scanFirst_dollar_none _ rogersFinalPriceAt_head
          (not_mem_of_hasChar_false (noDollar_texts hnd).1)
      simp only [h1, h2, hscan, Option.map_none', hspan, List.head?_nil,
        Option.getD_none]
    | none =>
      simp only [h1, h2, hspan, List.head?_nil, Option.getD_none]

/-- The Telus price extraction yields "unknown" on a dollar-free tile. -/
theorem extractTelusPrice_noDollar {t : Node} (hd : noDollarNode t = true) :
    extractTelusPrice t = "unknown" := by
  have htext : scanFirst telusPriceAt t.textAll.data = none :=
    scanFirst_dollar_none _ telusPriceAt_head
      (not_mem_of_hasChar_false (noDollar_texts hd).1)
  unfold extractTelusPrice
  cases h1 : t.findFirst (hasTestidSub "plan-price-lockup") with
  | some lockup =>
    have hnd := noDollar_findFirst hd h1
    simp [h1, scanDollar_none (noDollar_texts hnd).1, htext,
      scanDollar_none (noDollar_texts hd).1]
  | none =>
    simp [h1, htext, scanDollar_none (noDollar_texts hd).1]

/-- The Koodo price extraction yields "unknown" on a dollar-free tile. -/
theorem koodoPrice_noDollar {t : Node} (hd : noDollarNode t = true) :
    koodoPrice t = "unknown" := by
  unfold koodoPrice
  cases h1 : t.findFirst (hasTestidCI "plan-price-lockup") with
  | some e =>
    have hnd := noDollar_findFirst hd h1
    simp [h1, koodoPriceOfText, scanDollar_none (noDollar_texts hnd).2.1,
      scanDollar_none (noDollar_texts hd).1]
  | none =>
    simp [h1, koodoPriceOfText, scanDollar_none (noDollar_texts hd).1]

/-- The Virgin price extraction yields "unknown" on a dollar-free tile. -/
theorem virginPrice_noDollar {t : Node} (hd : noDollarNode t = true) :
    virginPrice t = "unknown" := by
  have htext : scanFirst virginPriceAt t.textAll.data = none :=
    scanFirst_dollar_none _ virginPriceAt_head
      (not_mem_of_hasChar_false (noDollar_texts hd).1)
  unfold virginPrice
  cases h1 : t.findFirst (fun n =>
      match n.attr? "id" with
      | some v => strContainsCI "accss-monthlyPrice-" v
      | none => false) with
  | some e =>
    have hnd := noDollar_findFirst hd h1
    simp [h1, scanDollar_none (noDollar_texts hnd).2.1, htext,
      scanDollar_none (noDollar_texts hd).1]
  | none =>
    simp [h1, htext, scanDollar_none (noDollar_texts hd).1]

/-- Every record the Fido normalizer emits from a dollar-free container has
the price sentinel. -/
theorem normalizeFido_price_noDollar {t : Node} (hd : noDollarNode t = true) :
    ∀ r, normalizeFidoPlan t = some r → r.price = "unknown" := by
  intro r hr
  have hfp : scanFirst fidoPriceAt t.textAll.data = none :=
    scanFirst_dollar_none _ fidoPriceAt_head
      (not_mem_of_hasChar_false (noDollar_texts hd).1)
  unfold normalizeFidoPlan at hr
  cases hpn : fidoPlanName t with
  | none => rw [hpn] at hr; exact absurd hr (by simp)
  | some pn =>
    rw [hpn] at hr
    by_cases hlen : pn.length > 50
    · simp [hlen] at hr
    · simp only [hlen, if_false] at hr
      cases hds : t.findFirst (hasClassCI "ds-price") with
      | some pe =>
        have hnd := noDollar_findFirst hd hds
        rw [hds] at hr
        simp only [scanDollar_none (noDollar_texts hnd).2.1, hfp,
          Option.some.injEq] at hr
        rw [← hr]
      | none =>
        rw [hds] at hr
        simp only [hfp, Option.some.injEq] at hr
        rw [← hr]

/-- A container whose text is entirely dollar-free. -/
def bellNoDollarTile : Node :=
  .elem "div" [("data-product-id", "p7")]
    [.elem "h3" [] [.text "Essential"],
     .elem "p" [] [.text "45 dollars with 20 GB"]]

/-- C9 counterexample.  Bare-digit price acceptance is NOT scoped to Bell:
the component-marker carrier's (Freedom's) price regex makes the dollar
sign optional, so the dollar-free text "Plan:34/month" — which every other
carrier maps to "unknown" — yields the price "$34" there, refuting the
claim that every carrier other than Bell returns "unknown" on text without
a dollar-prefixed number. -/
theorem claim9_counterexample_freedom_bare_digits :
    hasChar '$' "Plan:34/month" = false ∧
    freedomPriceFromText "Plan:34/month" = "$34" ∧
    "$34" ≠ "unknown" := by
  decide

/-- C9 amended.  The bare-digit deviation lives in the component-marker
carrier (Freedom), not in the container-id carrier (Bell): on a tile none
of whose text contains a dollar sign, the Rogers, Telus, Bell, Koodo, Fido
and Virgin price extractions all yield their "unknown" sentinel (Bell's
patterns merely tolerate whitespace after a mandatory '$'), while Freedom's
optional-dollar pattern accepts the bare digits of "Plan:34/month". -/
theorem claim9_amended_bare_digits_only_freedom {t : Node}
    (hd : noDollarNode t = true) :
    extractPrice t = "unknown" ∧
    extractFinalPrice t = "unknown" ∧
    extractTelusPrice t = "unknown" ∧
    bellDedupPrice t.textAll = none ∧
    scanFirst bellContextPriceAt t.textSpace.data = none ∧
    bellAllPrices t.textSpace = [] ∧
    koodoPrice t = "unknown" ∧
    virginPrice t = "unknown" ∧
    (∀ r, normalizeFidoPlan t = some r → r.price = "unknown") ∧
    freedomPriceFromText "Plan:34/month" = "$34" := by
  refine ⟨extractPrice_noDollar hd, extractFinalPrice_noDollar hd,
    extractTelusPrice_noDollar hd, ?_, ?_, ?_, koodoPrice_noDollar hd,
    virginPrice_noDollar hd, normalizeFido_price_noDollar hd, by decide⟩
  · simp [bellDedupPrice,
      scanFirst_dollar_none _ bellDollarAt_head
        (not_mem_of_hasChar_false (noDollar_texts hd).1)]
  · exact scanFirst_dollar_none _ bellContextPriceAt_head
      (not_mem_of_hasChar_false (noDollar_texts hd).2.2.1)
  · simp [bellAllPrices,
      findAllScan_bell_none _
        (not_mem_of_hasChar_false (noDollar_texts hd).2.2.1)]

/-- C9 amended witness: a concrete dollar-free Bell-style container. -/
theorem claim9_amended_witness :
    noDollarNode bellNoDollarTile = true ∧
    extractTelusPrice bellNoDollarTile = "unknown" ∧
    koodoPrice bellNoDollarTile = "unknown" :=
  ⟨by decide,
    (claim9_amended_bare_digits_only_freedom (by decide)).2.2.1,
    (claim9_amended_bare_digits_only_freedom
      (t := bellNoDollarTile) (by decide)).2.2.2.2.2.2.1⟩

end RatePlan
